import Mathlib

namespace FiscalFetch

/-!
A shallow embedding of the fiscal-fetch synchronization core
(src/core.py, src/file_handler.py, src/query_builder.py).

Strings are modeled through their character lists, bytes as natural
numbers, and the filesystem as an association list of paths to byte
contents plus a list of created directories.  Library calls are modeled
by executable functions at the ASCII/POSIX level: base64 decoding by a
state machine over the alphabet, os.path.join by separator-joining, and
the calendar conversion of epoch milliseconds is an environment
parameter because it depends on the local timezone of the host process.
Python falsiness of absent or empty strings is modeled by the empty
string.
-/

/-- ASCII model of the Python str.lower character map used on extensions
and header names. -/
def pyLowerChar (c : Char) : Char :=
  if 'A' ≤ c ∧ c ≤ 'Z' then Char.ofNat (c.toNat + 32) else c

/-- Model of Python str.lower. -/
def pyLower (s : String) : String := ⟨s.data.map pyLowerChar⟩

/-- ASCII model of the Python str.isalnum character test. -/
def pyIsAlnum (c : Char) : Bool :=
  decide (('A' ≤ c ∧ c ≤ 'Z') ∨ ('a' ≤ c ∧ c ≤ 'z') ∨ ('0' ≤ c ∧ c ≤ '9'))

/-- Model of Python str.strip (remove leading and trailing whitespace). -/
def pyStrip (s : String) : String :=
  ⟨((s.data.dropWhile Char.isWhitespace).reverse.dropWhile Char.isWhitespace).reverse⟩

/-- Model of Python str.startswith. -/
def pyStartswith (s pre : String) : Bool := pre.data.isPrefixOf s.data

/-- Model of the Python substring test (the in operator on strings). -/
def pyInStr (needle haystack : String) : Bool := decide (List.IsInfix needle.data haystack.data)

/-- Index of the last occurrence of a character, -1 when absent:
a model of Python str.rfind. -/
def rfindAux (c : Char) : List Char → Int
  | [] => -1
  | x :: xs =>
    if 0 ≤ rfindAux c xs then rfindAux c xs + 1
    else if x = c then 0 else -1

/-- The extension component of os.path.splitext (POSIX separators): the
suffix from the last dot, unless the basename consists of leading dots
only up to that dot. -/
def splitextExt (p : String) : String :=
  if rfindAux '/' p.data < rfindAux '.' p.data ∧
      (List.range p.data.length).any
        (fun i => decide (rfindAux '/' p.data < (i : Int)) &&
          decide ((i : Int) < rfindAux '.' p.data) && decide (p.data.get? i ≠ some '.')) then
    ⟨p.data.drop (rfindAux '.' p.data).toNat⟩
  else ""

/-- The characters after the last dot of a filename, empty when the
filename has no dot.  This is the reading of the word extension used by
the claims about the allow-list. -/
def extAfterLastDot (p : String) : String :=
  if rfindAux '.' p.data < 0 then "" else ⟨p.data.drop ((rfindAux '.' p.data).toNat + 1)⟩

/-- Two-digit zero padding, the Python format spec 02d for months. -/
def pad2 (n : Nat) : String := if n < 10 then "0" ++ toString n else toString n

/-- A calendar date, the part of a Python datetime the core consumes. -/
structure Date where
  year : Nat
  month : Nat
  day : Nat
deriving DecidableEq, Repr

/-- Model of email_date.strftime with format YYYY-MM-DD. -/
def Date.ymd (d : Date) : String := toString d.year ++ "-" ++ pad2 d.month ++ "-" ++ pad2 d.day

/-! ### base64, modeling base64.urlsafe_b64decode -/

/-- The urlsafe alphabet translation performed by urlsafe_b64decode. -/
def b64UrlsafeChar (c : Char) : Char :=
  if c = '-' then '+' else if c = '_' then '/' else c

/-- Value of a standard base64 alphabet character. -/
def b64Val (c : Char) : Option Nat :=
  if 'A' ≤ c ∧ c ≤ 'Z' then some (c.toNat - 'A'.toNat)
  else if 'a' ≤ c ∧ c ≤ 'z' then some (c.toNat - 'a'.toNat + 26)
  else if '0' ≤ c ∧ c ≤ '9' then some (c.toNat - '0'.toNat + 52)
  else if c = '+' then some 62
  else if c = '/' then some 63
  else none

/-- Bytes produced by a group of 2, 3 or 4 sextets. -/
def b64EmitQuad (q : List Nat) : List Nat :=
  match q with
  | [a, b] => [a * 4 + b / 16]
  | [a, b, c] => [a * 4 + b / 16, (b % 16) * 16 + c / 4]
  | [a, b, c, d] => [a * 4 + b / 16, (b % 16) * 16 + c / 4, (c % 4) * 64 + d]
  | _ => []

/-- Decoding loop of binascii.a2b_base64 in its default non-strict mode:
characters outside the alphabet are discarded, a padding sign after at
least two data characters of the current group completes the data, and
leftover groups of one, two or three characters at the end raise the
binascii errors whose messages are reproduced below. -/
def b64DecodeLoop : List Char → List Nat → List Nat → Except String (List Nat)
  | [], out, quad =>
    if quad.length = 0 then .ok out
    else if quad.length = 1 then
      .error "Invalid base64-encoded string: number of data characters cannot be 1 more than a multiple of 4"
    else .error "Incorrect padding"
  | c :: rest, out, quad =>
    if c = '=' then
      if 2 ≤ quad.length then .ok (out ++ b64EmitQuad quad)
      else b64DecodeLoop rest out quad
    else
      match b64Val c with
      | none => b64DecodeLoop rest out quad
      | some v =>
        if quad.length = 3 then b64DecodeLoop rest (out ++ b64EmitQuad (quad ++ [v])) []
        else b64DecodeLoop rest out (quad ++ [v])

/-- Model of base64.urlsafe_b64decode on text input, as called by
save_attachment and save_email_as_eml. -/
def urlsafe_b64decode (s : String) : Except String (List Nat) :=
  b64DecodeLoop (s.data.map b64UrlsafeChar) [] []

deriving instance DecidableEq for Except

/-! ### Filesystem model -/

/-- Filesystem state: files as an association list from path to byte
contents, and the set of directories created so far. -/
structure FS where
  files : List (String × List Nat)
  dirs : List String
deriving DecidableEq, Repr

def FS.fileAt (fs : FS) (p : String) : Option (List Nat) :=
  (fs.files.find? (fun e => decide (e.1 = p))).map (fun e => e.2)

def FS.existsFile (fs : FS) (p : String) : Bool :=
  fs.files.any (fun e => decide (e.1 = p))

def FS.dirExists (fs : FS) (d : String) : Bool := fs.dirs.contains d

/-- Model of os.makedirs. -/
def FS.mkdirs (fs : FS) (d : String) : FS := ⟨fs.files, d :: fs.dirs⟩

/-- Model of opening a path in mode wb and writing bytes to it. -/
def FS.writeFile (fs : FS) (p : String) (bs : List Nat) : FS :=
  ⟨(p, bs) :: fs.files.filter (fun e => decide (e.1 ≠ p)), fs.dirs⟩

/-- Model of os.remove. -/
def FS.removeFile (fs : FS) (p : String) : FS :=
  ⟨fs.files.filter (fun e => decide (e.1 ≠ p)), fs.dirs⟩

/-- Model of os.listdir for a flat directory: the names of the files
directly below it. -/
def stripDirName (dir p : String) : Option String :=
  if (dir.data ++ ['/']).isPrefixOf p.data then
    some ⟨p.data.drop (dir.data ++ ['/']).length⟩
  else none

def FS.listdir (fs : FS) (dir : String) : List String :=
  fs.files.filterMap (fun e => stripDirName dir e.1)

/-! ### src/file_handler.py -/

def ALLOWED_EXTENSIONS : List String := [".pdf", ".docx", ".doc", ".csv", ".zip", ".eml"]

inductive Status
  | Saved
  | Skipped
  | Error
deriving DecidableEq, Repr

structure SaveResult where
  status : Status
  details : String
deriving DecidableEq, Repr

def statusString : Status → String
  | .Saved => "Saved"
  | .Skipped => "Skipped"
  | .Error => "Error"

/-- Outcome of the raw byte write performed inside the try block: either
it succeeds, or the write raises after some truncated bytes already
reached the destination (for example on a full disk), carrying the
message of the raised OSError. -/
inductive WriteOutcome
  | ok
  | fail (truncated : List Nat) (msg : String)
deriving DecidableEq, Repr

/-- The structured directory chosen by save_attachment:
output_dir/downloads/year/month/attachments (os.path.join with POSIX
separators). -/
def attachmentStructuredDir (out : String) (d : Date) : String :=
  out ++ "/downloads/" ++ toString d.year ++ "/" ++ pad2 d.month ++ "/attachments"

/-- The sanitized filename: keep alphanumerics, dot, underscore and
hyphen, then strip whitespace (the strip is vacuous after filtering). -/
def sanitizeFilename (fn : String) : String :=
  pyStrip ⟨fn.data.filter (fun c => pyIsAlnum c || decide (c ∈ ['.', '_', '-']))⟩

def attachmentSafeName (fn : String) : String :=
  let file_ext := pyLower (splitextExt fn)
  let safe := sanitizeFilename fn
  if safe = "" then "unnamed_attachment" ++ file_ext else safe

/-- The destination path computed by save_attachment for a filename,
output root and email date. -/
def attachmentDestPath (fn out : String) (d : Date) : String :=
  attachmentStructuredDir out d ++ "/" ++ Date.ymd d ++ "_" ++ attachmentSafeName fn

/-- Model of os.path.relpath for a path below the given root. -/
def relpathUnder (root p : String) : String :=
  if (root.data ++ ['/']).isPrefixOf p.data then ⟨p.data.drop (root.data.length + 1)⟩ else p

/-- The directory-creation step: os.makedirs when the directory does
not yet exist. -/
def ensureDir (fs : FS) (d : String) : FS :=
  if fs.dirExists d = true then fs else fs.mkdirs d

/-- save_attachment of src/file_handler.py.  The extra WriteOutcome
parameter injects the possible failure of the raw file write; the
decode failure is produced by the base64 model itself. -/
def save_attachment (filename data output_dir : String) (email_date : Date)
    (w : WriteOutcome) (fs : FS) : SaveResult × FS :=
  let file_ext := pyLower (splitextExt filename)
  if ALLOWED_EXTENSIONS.contains file_ext = false then
    ({ status := .Skipped, details := "Disallowed type: " ++ file_ext }, fs)
  else
    let structured_dir := attachmentStructuredDir output_dir email_date
    let fs1 := ensureDir fs structured_dir
    let file_path := attachmentDestPath filename output_dir email_date
    if fs1.existsFile file_path then
      ({ status := .Skipped, details := "File already exists" }, fs1)
    else
      match urlsafe_b64decode data with
      | .error e => ({ status := .Error, details := e }, fs1)
      | .ok decoded =>
        match w with
        | .ok =>
          ({ status := .Saved, details := relpathUnder output_dir file_path },
            fs1.writeFile file_path decoded)
        | .fail tb m =>
          ({ status := .Error, details := m }, fs1.writeFile file_path tb)

/-- The emails directory used by save_email_as_eml. -/
def emailsDir (out : String) (d : Date) : String :=
  out ++ "/downloads/" ++ toString d.year ++ "/" ++ pad2 d.month ++ "/emails"

/-- save_email_as_eml of src/file_handler.py. -/
def save_email_as_eml (message_id data output_dir : String) (email_date : Date)
    (w : WriteOutcome) (fs : FS) : SaveResult × FS :=
  let structured_dir := emailsDir output_dir email_date
  let fs1 := ensureDir fs structured_dir
  let file_path := structured_dir ++ "/" ++ Date.ymd email_date ++ "_" ++ message_id ++ ".eml"
  if fs1.existsFile file_path then
    ({ status := .Skipped, details := "File already exists" }, fs1)
  else
    match urlsafe_b64decode data with
    | .error e => ({ status := .Error, details := e }, fs1)
    | .ok decoded =>
      match w with
      | .ok =>
        ({ status := .Saved, details := relpathUnder output_dir file_path },
          fs1.writeFile file_path decoded)
      | .fail tb m =>
        ({ status := .Error, details := m }, fs1.writeFile file_path tb)

/-! ### src/query_builder.py -/

def isLeapYear (y : Nat) : Bool := decide ((y % 4 = 0 ∧ y % 100 ≠ 0) ∨ y % 400 = 0)

def daysInMonth (y m : Nat) : Nat :=
  if m = 2 then (if isLeapYear y then 29 else 28)
  else if m ∈ [4, 6, 9, 11] then 30 else 31

def charDigit (c : Char) : Nat := c.toNat - '0'.toNat

/-- Model of datetime.date.fromisoformat acceptance of the YYYY-MM-DD
form used by the supported range format. -/
def isValidIsoDate (s : String) : Bool :=
  match s.data with
  | [y1, y2, y3, y4, h1, m1, m2, h2, d1, d2] =>
    [y1, y2, y3, y4, m1, m2, d1, d2].all Char.isDigit && decide (h1 = '-') && decide (h2 = '-') &&
      (let y := ((charDigit y1 * 10 + charDigit y2) * 10 + charDigit y3) * 10 + charDigit y4
       let m := charDigit m1 * 10 + charDigit m2
       let d := charDigit d1 * 10 + charDigit d2
       decide (1 ≤ m) && decide (m ≤ 12) && decide (1 ≤ d) && decide (d ≤ daysInMonth y m))
  | _ => false

/-- Model of str.split on the colon character. -/
def splitOnChar (c : Char) : List Char → List (List Char)
  | [] => [[]]
  | x :: xs =>
    let r := splitOnChar c xs
    if x = c then [] :: r
    else
      match r with
      | [] => [[x]]
      | h :: t => (x :: h) :: t

/-- Model of the str.replace of dashes by slashes. -/
def dashesToSlashes (s : String) : String :=
  ⟨s.data.map (fun c => if c = '-' then '/' else c)⟩

def natOfDigits (l : List Char) : Nat := l.foldl (fun acc c => acc * 10 + charDigit c) 0

/-- parse_date_range of src/query_builder.py.  None models the error
path, where the source only prints a message and returns None. -/
def parse_date_range (date_range_str : String) : Option (String × String) :=
  if date_range_str.data.contains ':' then
    match splitOnChar ':' date_range_str.data with
    | [a, b] =>
      if isValidIsoDate ⟨a⟩ && isValidIsoDate ⟨b⟩ then
        some (dashesToSlashes ⟨a⟩, dashesToSlashes ⟨b⟩)
      else none
    | _ => none
  else if date_range_str.data.length = 4 && date_range_str.data.all Char.isDigit then
    let year := natOfDigits date_range_str.data
    some (toString year ++ "/01/01", toString year ++ "/12/31")
  else none

structure ProfileData where
  include_keywords : List String
  from_senders : List String
  exclude_keywords : List String
deriving Repr

/-- Merge of profile and user lists through list(set(a + b)): the set
iteration order of CPython is unspecified, modeled here as first
occurrences. -/
def mergeUnique (a b : List String) : List String := (a ++ b).dedup

def quoteStr (s : String) : String := "\"" ++ s ++ "\""

/-- build_query of src/query_builder.py. -/
def build_query (profile_data : ProfileData) (date_range : String) (user_email : String)
    (user_inclusions : Option ProfileData) : String :=
  let ui := user_inclusions.getD ⟨[], [], []⟩
  let include_keywords := mergeUnique profile_data.include_keywords ui.include_keywords
  let from_senders := mergeUnique profile_data.from_senders ui.from_senders
  let exclude_keywords := mergeUnique profile_data.exclude_keywords ui.exclude_keywords
  let positive_parts :=
    (if from_senders.isEmpty then [] else
      ["\x7b" ++ String.intercalate " OR " (from_senders.map (fun s => "from:" ++ s)) ++ "\x7d"]) ++
    (if include_keywords.isEmpty then [] else
      [String.intercalate " OR " (include_keywords.map quoteStr)])
  let query := "(" ++ String.intercalate " OR " positive_parts ++ ")"
  let query :=
    if exclude_keywords.isEmpty then query
    else query ++ " " ++ String.intercalate " " (exclude_keywords.map (fun k => "-" ++ quoteStr k))
  let query :=
    match parse_date_range date_range with
    | some (start_date, end_date) => query ++ " after:" ++ start_date ++ " before:" ++ end_date
    | none => query
  query ++ " has:attachment -from:" ++ user_email

/-! ### src/core.py: processed index -/

/-- The three observable states of the persisted index file: missing,
present but not decodable as JSON, or a JSON array of thread ids. -/
inductive IndexFile
  | absent
  | corrupt
  | valid (ids : List String)
deriving DecidableEq, Repr

/-- The thread-id list recovered from the index file, deduplicated as by
set(json.load(f)); the iteration order of a CPython set is unspecified
and modeled as first occurrences. -/
def loadIndexList : IndexFile → List String
  | .absent => []
  | .corrupt => []
  | .valid ids => ids.dedup

/-- FiscalFetchCore._load_processed_index: absent or unparsable files
recover as the empty set. -/
def load_processed_index (f : IndexFile) : Finset String := (loadIndexList f).toFinset

/-! ### src/core.py: sync engine -/

/-- One row of the audit CSV.  The wall-clock Timestamp column is
omitted: it never influences control flow. -/
structure AuditRow where
  eventType : String
  threadId : String
  emailDate : String
  subject : String
  entity : String
  status : String
  details : String
deriving DecidableEq, Repr

def mkRow (et tid ed subj ent st det : String) : AuditRow :=
  { eventType := et, threadId := tid, emailDate := ed, subject := subj,
    entity := ent, status := st, details := det }

/-- Events of one run, in order.  Audit rows caused by an attachment
part carry the attachment id that produced them; materialize marks an
invocation of save_attachment; indexWrite records the thread-id list
handed to _save_processed_index. -/
inductive Event
  | audit (attachId : Option String) (row : AuditRow)
  | materialize (attachId : String)
  | reportRow (threadId messageId : String)
  | indexWrite (ids : List String)
deriving DecidableEq, Repr

/-- One part of a message payload; empty strings model absent or falsy
filename and body.attachmentId fields. -/
structure Part where
  filename : String
  attachmentId : String
deriving DecidableEq, Repr

structure Message where
  id : String
  threadId : String
  internalDate : Nat
  headers : List (String × String)
  parts : List Part
deriving DecidableEq, Repr

structure Thread where
  id : String
  messages : List Message
deriving DecidableEq, Repr

/-- Case-insensitive first-match header lookup, next(... for h in
headers if name lower matches, default). -/
def headerLookup (headers : List (String × String)) (nm dflt : String) : String :=
  match headers.find? (fun h => decide (pyLower h.1 = nm)) with
  | some h => h.2
  | none => dflt

/-- Run configuration, the parts of the config dict the engine reads.
report models the presence of the report logger (a date range was given
and no_report was not). -/
structure Config where
  profile : String
  date_range : String
  output_directory : String
  dry_run : Bool
  force_rescan : Bool
  report : Bool

/-- The remote mail source and ambient host behavior, treated as a
black box: connectivity, thread listing with full detail, attachment
and raw-message fetches, local-timezone calendar conversion of epoch
milliseconds, and the outcome of raw file writes. -/
structure Env where
  connected : Bool
  threads : List Thread
  getAttachment : String → String → String
  getRawMessage : String → String
  msToDate : Nat → Date
  writeOutcome : WriteOutcome

/-- The only exception the engine itself can raise on the paths modeled
here: _show_progress divides by a zero thread total. -/
inductive RunError
  | zeroDivisionError
deriving DecidableEq, Repr

structure RunState where
  trace : List Event
  fs : FS
  seen : List String
  processed : List String

/-- Set insertion on the list representation of a Python set. -/
def addIdOnce (l : List String) (x : String) : List String :=
  if x ∈ l then l else l ++ [x]

/-- Processing of one part of one message: parts with a truthy filename
and a not yet seen attachment id are marked seen, then either logged as
a dry-run skip or fetched, materialized and logged with the
materializer status. -/
def processPart (cfg : Config) (env : Env) (threadId msgId : String)
    (email_date : Date) (subject : String) (st : RunState) (p : Part) : RunState :=
  if p.filename ≠ "" ∧ p.attachmentId ≠ "" ∧ p.attachmentId ∉ st.seen then
    let seen := st.seen ++ [p.attachmentId]
    if cfg.dry_run then
      { st with
        seen := seen,
        trace := st.trace ++ [.audit (some p.attachmentId)
          (mkRow "Attachment Process" threadId (Date.ymd email_date) subject p.filename
            "Skipped" "Dry Run")] }
    else
      let data := env.getAttachment msgId p.attachmentId
      let r := save_attachment p.filename data cfg.output_directory email_date
        env.writeOutcome st.fs
      { st with
        seen := seen,
        fs := r.2,
        trace := st.trace ++ [.materialize p.attachmentId,
          .audit (some p.attachmentId)
            (mkRow "Attachment Process" threadId (Date.ymd email_date) subject p.filename
              (statusString r.1.status) r.1.details)] }
  else st

def processParts (cfg : Config) (env : Env) (threadId msgId : String)
    (email_date : Date) (subject : String) : RunState → List Part → RunState
  | st, [] => st
  | st, p :: ps =>
    processParts cfg env threadId msgId email_date subject
      (processPart cfg env threadId msgId email_date subject st p) ps

/-- In reporting mode, fetch the raw message, save it as eml and emit a
report row; otherwise leave the state untouched. -/
def processReport (cfg : Config) (env : Env) (st : RunState) (m : Message) : RunState :=
  if cfg.report then
    { st with
      fs := (save_email_as_eml m.id (env.getRawMessage m.id) cfg.output_directory
        (env.msToDate m.internalDate) env.writeOutcome st.fs).2,
      trace := st.trace ++ [.reportRow m.threadId m.id] }
  else st

/-- Processing of one message: resolve subject and date, in reporting
mode save the raw message as eml and emit a report row, then walk the
parts. -/
def processMessage (cfg : Config) (env : Env) (threadId : String)
    (st : RunState) (m : Message) : RunState :=
  processParts cfg env threadId m.id (env.msToDate m.internalDate)
    (headerLookup m.headers "subject" "No Subject") (processReport cfg env st m) m.parts

def processMessages (cfg : Config) (env : Env) (threadId : String) :
    RunState → List Message → RunState
  | st, [] => st
  | st, m :: ms => processMessages cfg env threadId (processMessage cfg env threadId st m) ms

/-- Committing a thread id to the working index set, skipped on dry
runs. -/
def commitThread (cfg : Config) (st : RunState) (tid : String) : RunState :=
  if cfg.dry_run then st else { st with processed := addIdOnce st.processed tid }

/-- Processing of one thread, committing its id to the working index
set unless the run is a dry run. -/
def processThread (cfg : Config) (env : Env) (st : RunState) (t : Thread) : RunState :=
  commitThread cfg (processMessages cfg env t.id st t.messages) t.id

def processThreads (cfg : Config) (env : Env) : RunState → List Thread → RunState
  | st, [] => st
  | st, t :: ts => processThreads cfg env (processThread cfg env st t) ts

def runStartRow (cfg : Config) : AuditRow :=
  mkRow "Run Start" "" "" "" "" "Success"
    ("Profile: " ++ cfg.profile ++ ", Date Range: " ++ cfg.date_range)

def runEndNoThreadsRow : AuditRow := mkRow "Run End" "" "" "" "" "Success" "No threads found."

def runEndRow (n : Nat) : AuditRow :=
  mkRow "Run End" "" "" "" "" "Success" ("Processed " ++ toString n ++ " new threads.")

/-- The working index set at run start: empty under forced rescan,
otherwise the loaded index. -/
def initialProcessed (cfg : Config) (idx : IndexFile) : List String :=
  if cfg.force_rescan then [] else loadIndexList idx

/-- The threads the run will process: listed threads whose id is not in
the working index set. -/
def newThreadsOf (cfg : Config) (env : Env) (idx : IndexFile) : List Thread :=
  env.threads.filter (fun t => !(initialProcessed cfg idx).contains t.id)

structure RunResult where
  trace : List Event
  indexFile : IndexFile
  fs : FS
  err : Option RunError
deriving Repr

/-- The state after walking every new thread of the run. -/
def runProcessed (cfg : Config) (env : Env) (idx : IndexFile) (fs : FS) : RunState :=
  processThreads cfg env
    { trace := [Event.audit none (runStartRow cfg)], fs := fs, seen := [],
      processed := initialProcessed cfg idx }
    (newThreadsOf cfg env idx)

/-- FiscalFetchCore.run.  The early returns for a missing service and
for an empty thread listing are modeled, and the initial
_show_progress(0, total) call raises ZeroDivisionError when the new
thread total is zero, which aborts the run before any processing and
before any index write. -/
def run (cfg : Config) (env : Env) (idx : IndexFile) (fs : FS) : RunResult :=
  if env.connected = false then ⟨[], idx, fs, none⟩
  else if env.threads.isEmpty then
    ⟨[Event.audit none (runStartRow cfg), .audit none runEndNoThreadsRow], idx, fs, none⟩
  else if (newThreadsOf cfg env idx).length = 0 then
    ⟨[Event.audit none (runStartRow cfg)], idx, fs, some .zeroDivisionError⟩
  else if cfg.force_rescan then
    ⟨(runProcessed cfg env idx fs).trace
        ++ [.audit none (runEndRow (newThreadsOf cfg env idx).length)],
      idx, (runProcessed cfg env idx fs).fs, none⟩
  else
    ⟨(runProcessed cfg env idx fs).trace
        ++ [.indexWrite (runProcessed cfg env idx fs).processed,
            .audit none (runEndRow (newThreadsOf cfg env idx).length)],
      .valid (runProcessed cfg env idx fs).processed, (runProcessed cfg env idx fs).fs, none⟩

/-! ### src/core.py: reset tool -/

/-- The audit rows selected by reset_period: Attachment Process events
with status Saved whose email date is truthy and starts with the
period, or every such event when the period is the word all. -/
def rowMatches (period : String) (row : AuditRow) : Bool :=
  decide (row.eventType = "Attachment Process") && decide (row.status = "Saved") &&
    (decide (period = "all") || (decide (row.emailDate ≠ "") && pyStartswith row.emailDate period))

structure ResetPhase1State where
  fs : FS
  tids : List String
  log : List AuditRow

/-- One audit row of the first phase of reset_period: when the row
matches, delete its recorded file if it exists (logging the deletion)
and collect its thread id. -/
def resetRowStep (out period : String) (st : ResetPhase1State) (row : AuditRow) :
    ResetPhase1State :=
  if rowMatches period row then
    { fs := if st.fs.existsFile (out ++ "/" ++ row.details) = true then
        st.fs.removeFile (out ++ "/" ++ row.details) else st.fs,
      tids := addIdOnce st.tids row.threadId,
      log := st.log ++ (if st.fs.existsFile (out ++ "/" ++ row.details) = true then
        [mkRow "File Deletion" row.threadId "" "" (out ++ "/" ++ row.details) "Success" ""]
        else []) }
  else st

/-- First phase of reset_period over the parsed audit rows. -/
def resetAttachRows (out period : String) : ResetPhase1State → List AuditRow → ResetPhase1State
  | st, [] => st
  | st, row :: rest => resetAttachRows out period (resetRowStep out period st row) rest

/-- The filename filter of the report phase: the literal period string
occurring anywhere in the filename, or the period all. -/
def reportNameMatches (period name : String) : Bool :=
  decide (period = "all") || pyInStr period name

structure ResetPhase2State where
  fs : FS
  deleted : Nat
  log : List AuditRow
  deletedNames : List String

/-- One report filename of the second phase of reset_period: delete it
when its name contains the period.  A file that disappeared before its
removal raises an OSError which is only logged. -/
def resetReportStep (out period : String) (st : ResetPhase2State) (name : String) :
    ResetPhase2State :=
  if reportNameMatches period name then
    if st.fs.existsFile (out ++ "/reports/" ++ name) = true then
      { fs := st.fs.removeFile (out ++ "/reports/" ++ name),
        deleted := st.deleted + 1,
        log := st.log ++ [mkRow "Report Deletion" "" "" ""
          (out ++ "/reports/" ++ name) "Success" ""],
        deletedNames := st.deletedNames ++ [name] }
    else
      { fs := st.fs,
        deleted := st.deleted,
        log := st.log ++ [mkRow "Report Deletion" "" "" "" (out ++ "/reports/" ++ name) "Error"
          "No such file or directory"],
        deletedNames := st.deletedNames }
  else st

/-- Second phase of reset_period over the listed report filenames. -/
def resetReports (out period : String) : ResetPhase2State → List String → ResetPhase2State
  | st, [] => st
  | st, name :: rest => resetReports out period (resetReportStep out period st name) rest

def reportsDirOf (out : String) : String := out ++ "/reports"

/-- The state after the file-deletion phase of reset_period. -/
def resetPhase1 (out period : String) (rows : List AuditRow) (fs : FS) : ResetPhase1State :=
  resetAttachRows out period ⟨fs, [], []⟩ rows

/-- The state after the report-deletion phase of reset_period, fed by a
single os.listdir of the reports directory when it exists. -/
def resetPhase2 (out period : String) (rows : List AuditRow) (fs : FS) : ResetPhase2State :=
  if (resetPhase1 out period rows fs).fs.dirExists (reportsDirOf out) then
    resetReports out period
      ⟨(resetPhase1 out period rows fs).fs, 0, (resetPhase1 out period rows fs).log, []⟩
      ((resetPhase1 out period rows fs).fs.listdir (reportsDirOf out))
  else ⟨(resetPhase1 out period rows fs).fs, 0, (resetPhase1 out period rows fs).log, []⟩

structure ResetResult where
  fs : FS
  indexFile : IndexFile
  log : List AuditRow
  deletedReportNames : List String
deriving Repr

/-- FiscalFetchCore.reset_period.  The audit log is passed as parsed
rows (none when the log file is missing); the index is loaded,
subtracted and saved only when something was removed. -/
def reset_period : String → String → Option (List AuditRow) → IndexFile → FS → ResetResult
  | _, _, none, idx, fs => ⟨fs, idx, [], []⟩
  | out, period, some rows, idx, fs =>
    if (resetPhase1 out period rows fs).tids.isEmpty
        ∧ (resetPhase2 out period rows fs).deleted = 0 then
      ⟨(resetPhase2 out period rows fs).fs, idx, (resetPhase2 out period rows fs).log,
        (resetPhase2 out period rows fs).deletedNames⟩
    else
      ⟨(resetPhase2 out period rows fs).fs,
        .valid ((loadIndexList idx).filter
          (fun tid => !(resetPhase1 out period rows fs).tids.contains tid)),
        (resetPhase2 out period rows fs).log ++ [mkRow "Index Reset" "" "" "" "" "Success" ""],
        (resetPhase2 out period rows fs).deletedNames⟩

/-! ### Claim-side definitions, worded from the specification -/

/-- The destination path as the claim words it:
root/year/month/date_sanitizedname, without the downloads and
attachments segments the implementation inserts. -/
def claimedDestPath (fn out : String) (d : Date) : String :=
  out ++ "/" ++ toString d.year ++ "/" ++ pad2 d.month ++ "/" ++ Date.ymd d ++ "_" ++
    attachmentSafeName fn

/-- Locates the characters after the report_for token of a report
filename. -/
def findReportRange : List Char → Option (List Char)
  | [] => none
  | c :: rest =>
    if "_report_for_".data.isPrefixOf (c :: rest) then
      some ((c :: rest).drop "_report_for_".data.length)
    else findReportRange rest

/-- The dates a report filename encodes, per the naming scheme
timestamp_report_for_range.csv of core.py: the date of the run
timestamp and the endpoints of the range (with to separating them). -/
def reportEncodedDates (name : String) : List String :=
  let range :=
    match findReportRange name.data with
    | some r => (splitOnChar '_' (r.take (r.length - 4))).map
        (fun seg : List Char => (⟨seg⟩ : String))
    | none => []
  (⟨name.data.take 10⟩ : String) :: (range.filter (fun s => decide (s ≠ "to")))

/-! ### Trace observations -/

/-- Attachment ids of the Attachment Process audit rows of a trace, in
order. -/
def attachIds (tr : List Event) : List String :=
  tr.filterMap (fun e => match e with | .audit (some a) _ => some a | _ => none)

/-- Attachment ids of the materializer invocations of a trace, in
order. -/
def matIds (tr : List Event) : List String :=
  tr.filterMap (fun e => match e with | .materialize a => some a | _ => none)

def isIndexWrite : Event → Bool
  | .indexWrite _ => true
  | _ => false

def indexWriteCount (tr : List Event) : Nat := (tr.filter isIndexWrite).length

/-- Events belonging to the processing of an attachment part. -/
def isAttachEvent : Event → Bool
  | .materialize _ => true
  | .audit (some _) _ => true
  | _ => false

/-- Whether some attachment-processing event occurs after an index
write in the trace. -/
def attachAfterWrite : List Event → Bool
  | [] => false
  | .indexWrite _ :: rest => rest.any isAttachEvent || attachAfterWrite rest
  | _ :: rest => attachAfterWrite rest

/-- The bare allow-list as the claims word it, without the leading dots
the implementation stores. -/
def BARE_EXTENSIONS : List String := ["pdf", "docx", "doc", "csv", "zip", "eml"]

/-- Invariant tying the trace of a run state to its seen set: the
attachment ids of the emitted Attachment Process rows are exactly the
seen ids in order, the materializer was invoked exactly on the seen ids
(never on a dry run), and no id was seen twice. -/
def StInv (cfg : Config) (st : RunState) : Prop :=
  attachIds st.trace = st.seen
  ∧ matIds st.trace = (if cfg.dry_run then [] else st.seen)
  ∧ st.seen.Nodup

/-- Relation between a run state and any later state of the same run:
the trace is extended with events that are not index writes, the seen
set only grows, the working index set is untouched on dry runs, and the
trace invariant is preserved. -/
def StepOk (cfg : Config) (st st2 : RunState) : Prop :=
  (∃ ds, st2.trace = st.trace ++ ds ∧ ∀ e ∈ ds, isIndexWrite e = false)
  ∧ (∀ a, a ∈ st.seen → a ∈ st2.seen)
  ∧ (cfg.dry_run = true → st2.processed = st.processed)
  ∧ (StInv cfg st → StInv cfg st2)

/-- The paths reset_period removes: files recorded by matching Saved
audit rows, and report files whose name contains the period. -/
def resetDeletesFile (out period : String) (rows : List AuditRow) (fs : FS) (p : String) : Bool :=
  rows.any (fun row => rowMatches period row && decide (p = out ++ "/" ++ row.details))
  || (fs.dirExists (reportsDirOf out) &&
      (fs.listdir (reportsDirOf out)).any (fun name =>
        reportNameMatches period name && decide (p = out ++ "/reports/" ++ name)))

/-! ### Concrete fixtures used by witnesses and counterexamples -/

def dateW : Date := ⟨2024, 5, 10⟩

def msgW1 : Message := ⟨"m1", "t1", 1000, [("Subject", "Invoice May")], [⟨"inv.pdf", "A1"⟩]⟩

def msgW2 : Message := ⟨"m2", "t1", 2000, [("Subject", "Re: Invoice May")], [⟨"inv.pdf", "A1"⟩]⟩

/-- A remote source with one thread of two messages, both referencing
the same attachment id. -/
def envW : Env :=
  { connected := true
    threads := [⟨"t1", [msgW1, msgW2]⟩]
    getAttachment := fun _ _ => "aGk="
    getRawMessage := fun _ => "aGk="
    msToDate := fun _ => dateW
    writeOutcome := .ok }

def cfgW : Config :=
  { profile := "default", date_range := "2024", output_directory := "out",
    dry_run := false, force_rescan := false, report := false }

def cfgWDry : Config :=
  { profile := "default", date_range := "2024", output_directory := "out",
    dry_run := true, force_rescan := false, report := false }

def emptyFS : FS := ⟨[], []⟩

def rowW1 : AuditRow :=
  mkRow "Attachment Process" "t1" "2024-05-10" "s" "inv.pdf" "Saved"
    "downloads/2024/05/attachments/2024-05-10_inv.pdf"

def rowW2 : AuditRow :=
  mkRow "Attachment Process" "t2" "2023-01-01" "s" "a.pdf" "Saved"
    "downloads/2023/01/attachments/2023-01-01_a.pdf"

def fsW6 : FS :=
  ⟨[("out/downloads/2024/05/attachments/2024-05-10_inv.pdf", [1]),
    ("out/downloads/2023/01/attachments/2023-01-01_a.pdf", [2]),
    ("out/reports/2023-06-01_202455_report_for_2023.csv", [3])], ["out/reports"]⟩

/-! ### Basic lemmas about the filesystem model -/

theorem FS.fileAt_mkdirs (fs : FS) (d p : String) : (fs.mkdirs d).fileAt p = fs.fileAt p := rfl

theorem FS.existsFile_mkdirs (fs : FS) (d p : String) :
    (fs.mkdirs d).existsFile p = fs.existsFile p := rfl

theorem FS.existsFile_eq_false_iff (fs : FS) (p : String) :
    fs.existsFile p = false ↔ fs.fileAt p = none := by
  simp [FS.existsFile, FS.fileAt, List.any_eq_false, List.find?_eq_none, Option.map_eq_none]

theorem FS.fileAt_writeFile_self (fs : FS) (p : String) (bs : List Nat) :
    (fs.writeFile p bs).fileAt p = some bs := by
  simp [FS.writeFile, FS.fileAt, List.find?]

theorem FS.existsFile_writeFile_self (fs : FS) (p : String) (bs : List Nat) :
    (fs.writeFile p bs).existsFile p = true := by
  simp [FS.writeFile, FS.existsFile]

theorem find?_filter_ne {l : List (String × List Nat)} {q p : String} (h : q ≠ p) :
    (l.filter (fun e => decide (e.1 ≠ q))).find? (fun e => decide (e.1 = p)) =
      l.find? (fun e => decide (e.1 = p)) := by
  induction l with
  | nil => rfl
  | cons e rest ih =>
    by_cases hq : e.1 = q
    · have hp : ¬ e.1 = p := fun hp => h (hq.symm.trans hp)
      rw [List.filter_cons_of_neg (by simpa using hq),
        List.find?_cons_of_neg _ (by simpa using hp), ih]
    · rw [List.filter_cons_of_pos (by simpa using hq)]
      by_cases hp : e.1 = p
      · rw [List.find?_cons_of_pos _ (by simpa using hp),
          List.find?_cons_of_pos _ (by simpa using hp)]
      · rw [List.find?_cons_of_neg _ (by simpa using hp),
          List.find?_cons_of_neg _ (by simpa using hp), ih]

theorem FS.fileAt_removeFile (fs : FS) (q p : String) :
    (fs.removeFile q).fileAt p = if q = p then none else fs.fileAt p := by
  by_cases h : q = p
  · simp only [FS.removeFile, FS.fileAt, if_pos h]
    rw [List.find?_eq_none.mpr]
    · rfl
    · intro e he
      have h2 := List.of_mem_filter he
      simp only [decide_eq_true_eq] at h2 ⊢
      exact fun hp => h2 (hp.trans h.symm)
  · simp only [FS.removeFile, FS.fileAt, if_neg h]
    rw [find?_filter_ne h]

theorem FS.dirs_removeFile (fs : FS) (q : String) : (fs.removeFile q).dirs = fs.dirs := rfl

theorem existsFile_ensureDir (fs : FS) (d p : String) :
    (ensureDir fs d).existsFile p = fs.existsFile p := by
  unfold ensureDir
  split
  · rfl
  · rfl

theorem fileAt_ensureDir (fs : FS) (d p : String) :
    (ensureDir fs d).fileAt p = fs.fileAt p := by
  unfold ensureDir
  split
  · rfl
  · rfl

/-! ### Claim theorems -/

/-- Claim C9: loading the processed index returns the empty set when the
file is absent or unparsable, and the stored set of thread ids
otherwise. -/
theorem c9_fail_open_index_load :
    load_processed_index .absent = ∅ ∧ load_processed_index .corrupt = ∅ ∧
      ∀ ids, load_processed_index (.valid ids) = ids.toFinset := by
  refine ⟨rfl, rfl, fun ids => ?_⟩
  apply Finset.ext
  intro a
  simp [load_processed_index, loadIndexList, List.mem_dedup]

set_option maxRecDepth 100000 in
/-- Claim C8: a date-range string matching neither supported format is
rejected by parse_date_range, but build_query then silently returns an
ordinary query with no after or before window, surfacing no error to
the caller. -/
theorem c8_invalid_range_unbounded_query :
    parse_date_range "2024-05" = none
    ∧ build_query ⟨["invoice"], ["billing@acme.com"], []⟩ "2024-05" "me@example.com" none
        = "(\x7bfrom:billing@acme.com\x7d OR \"invoice\") has:attachment -from:me@example.com"
    ∧ pyInStr "after:"
        (build_query ⟨["invoice"], ["billing@acme.com"], []⟩ "2024-05" "me@example.com" none)
        = false
    ∧ pyInStr "before:"
        (build_query ⟨["invoice"], ["billing@acme.com"], []⟩ "2024-05" "me@example.com" none)
        = false := by
  refine ⟨by decide, by decide, by decide, by decide⟩

/-- Claim C1, counterexample: a dry run over a fresh index file still
persists the index (the file springs into existence holding the empty
list), so the persisted contents are not identical to the pre-run
state. -/
theorem c1_counterexample :
    (run cfgWDry envW .absent emptyFS).indexFile ≠ IndexFile.absent
    ∧ Event.indexWrite [] ∈ (run cfgWDry envW .absent emptyFS).trace := by
  refine ⟨by decide, by decide⟩

/-- Claim C4, counterexample: the implemented destination path inserts
downloads and attachments segments the claimed formula
root/year/month/date_name does not have. -/
theorem c4_counterexample :
    attachmentDestPath "invoice.pdf" "out" dateW
        = "out/downloads/2024/05/attachments/2024-05-10_invoice.pdf"
    ∧ claimedDestPath "invoice.pdf" "out" dateW = "out/2024/05/2024-05-10_invoice.pdf"
    ∧ attachmentDestPath "invoice.pdf" "out" dateW ≠ claimedDestPath "invoice.pdf" "out" dateW := by
  refine ⟨by decide, by decide, by decide⟩

/-- Claim C5, counterexample: when the raw write fails after the
destination file was opened, save_attachment returns Error but a
truncated file is left visible at the destination path, so the
filesystem state at that path differs from its pre-call state. -/
theorem c5_counterexample :
    (save_attachment "a.pdf" "" "out" dateW (.fail [] "No space left on device") emptyFS).1.status
        = Status.Error
    ∧ (save_attachment "a.pdf" "" "out" dateW (.fail [] "No space left on device") emptyFS).2.fileAt
          (attachmentDestPath "a.pdf" "out" dateW)
        ≠ emptyFS.fileAt (attachmentDestPath "a.pdf" "out" dateW) := by
  refine ⟨by decide, by decide⟩

set_option maxRecDepth 100000 in
/-- Claim C6, counterexample: under period 2024, reset_period deletes a
report file produced at 20:24:55 on a day of June 2023 for the range
2023, although none of the dates its name encodes starts with 2024; the
substring filter matches inside the time-of-day digits. -/
theorem c6_counterexample :
    ResetResult.deletedReportNames
        (reset_period "out" "2024" (some [rowW1, rowW2]) (.valid ["t1", "t2", "t3"]) fsW6)
        = ["2023-06-01_202455_report_for_2023.csv"]
    ∧ reportEncodedDates "2023-06-01_202455_report_for_2023.csv" = ["2023-06-01", "2023"]
    ∧ (reportEncodedDates "2023-06-01_202455_report_for_2023.csv").all
        (fun s => !pyStartswith s "2024") = true := by
  refine ⟨by decide, by decide, by decide⟩

/-! ### The extension check of save_attachment -/

theorem rfindAux_ge (c : Char) (l : List Char) : -1 ≤ rfindAux c l := by
  induction l with
  | nil => simp [rfindAux]
  | cons x xs ih =>
    simp only [rfindAux]
    split
    · omega
    · split <;> omega

theorem rfindAux_spec (c : Char) (l : List Char) (h : 0 ≤ rfindAux c l) :
    (rfindAux c l).toNat < l.length ∧ l.get? (rfindAux c l).toNat = some c := by
  induction l with
  | nil => simp [rfindAux] at h
  | cons x xs ih =>
    simp only [rfindAux] at h ⊢
    by_cases h0 : 0 ≤ rfindAux c xs
    · rw [if_pos h0] at h ⊢
      obtain ⟨h1, h2⟩ := ih h0
      have hn : (rfindAux c xs + 1).toNat = (rfindAux c xs).toNat + 1 := by omega
      refine ⟨by simp [hn]; omega, ?_⟩
      rw [hn]
      simpa using h2
    · rw [if_neg h0] at h ⊢
      by_cases hx : x = c
      · rw [if_pos hx] at h ⊢
        exact ⟨by simp, by simp [hx]⟩
      · rw [if_neg hx] at h
        omega

/-- Either splitext yields no extension, or it yields the dot followed
by the characters after the last dot. -/
theorem splitextExt_cases (p : String) :
    splitextExt p = "" ∨ (splitextExt p).data = '.' :: (extAfterLastDot p).data := by
  unfold splitextExt
  split
  case isFalse h => exact Or.inl rfl
  case isTrue h =>
    right
    have hge : -1 ≤ rfindAux '/' p.data := rfindAux_ge '/' p.data
    have hd0 : 0 ≤ rfindAux '.' p.data := by
      have := h.1
      omega
    obtain ⟨hlt, hget⟩ := rfindAux_spec '.' p.data hd0
    have hdrop := List.drop_eq_getElem_cons hlt
    have hchar : p.data[(rfindAux '.' p.data).toNat] = '.' := by
      have := List.getElem?_eq_getElem hlt
      rw [← List.get?_eq_getElem?] at this
      rw [hget] at this
      exact (Option.some.inj this).symm
    show (p.data.drop (rfindAux '.' p.data).toNat) = '.' :: (extAfterLastDot p).data
    rw [hdrop, hchar]
    congr 1
    unfold extAfterLastDot
    rw [if_neg (by omega)]

theorem mk_dot_inj {rest : List Char} {s : String}
    (h : (⟨'.' :: rest⟩ : String) = s) : (⟨rest⟩ : String) = ⟨s.data.drop 1⟩ := by
  cases s with
  | mk d =>
    cases h
    rfl

theorem dot_cons_mem_allowed {rest : List Char}
    (h : (⟨'.' :: rest⟩ : String) ∈ ALLOWED_EXTENSIONS) :
    (⟨rest⟩ : String) ∈ BARE_EXTENSIONS := by
  simp only [ALLOWED_EXTENSIONS, List.mem_cons, List.not_mem_nil, or_false] at h
  rcases h with h | h | h | h | h | h <;> rw [mk_dot_inj h] <;> decide

/-- If the lowercased characters after the last dot are outside the bare
allow-list, the lowercased splitext extension is outside the dotted
allow-list of the implementation. -/
theorem disallowed_bridge (fn : String)
    (h : pyLower (extAfterLastDot fn) ∉ BARE_EXTENSIONS) :
    ALLOWED_EXTENSIONS.contains (pyLower (splitextExt fn)) = false := by
  rcases splitextExt_cases fn with hc | hc
  · rw [hc]
    decide
  · cases hb : ALLOWED_EXTENSIONS.contains (pyLower (splitextExt fn)) with
    | false => rfl
    | true =>
      exfalso
      have hmem : pyLower (splitextExt fn) ∈ ALLOWED_EXTENSIONS := by
        simpa [List.contains] using hb
      have hd : pyLower (splitextExt fn) = ⟨'.' :: (pyLower (extAfterLastDot fn)).data⟩ := by
        apply String.ext
        show (splitextExt fn).data.map pyLowerChar
          = '.' :: (extAfterLastDot fn).data.map pyLowerChar
        rw [hc]
        simp [List.map_cons, show pyLowerChar '.' = '.' from by decide]
      rw [hd] at hmem
      have hb2 := dot_cons_mem_allowed hmem
      exact h hb2

/-- Claim C3: a filename whose lowercased extension (the characters
after the last dot) is outside the allow-list is skipped with a
disallowed-type reason before any decode or write: the result is
independent of the payload and the write outcome and the filesystem is
returned untouched. -/
theorem c3_disallowed_skip (filename data output_dir : String) (email_date : Date)
    (w : WriteOutcome) (fs : FS)
    (h : pyLower (extAfterLastDot filename) ∉ BARE_EXTENSIONS) :
    save_attachment filename data output_dir email_date w fs =
      ({ status := .Skipped, details := "Disallowed type: " ++ pyLower (splitextExt filename) },
        fs) := by
  have hb := disallowed_bridge filename h
  have hnot : pyLower (splitextExt filename) ∉ ALLOWED_EXTENSIONS := by
    simpa [List.contains] using hb
  simp [save_attachment, hnot]

/-- Witness for C3 at a concrete executable filename. -/
theorem c3_witness :
    save_attachment "malware.exe" "aGk=" "out" dateW .ok emptyFS =
      ({ status := .Skipped, details := "Disallowed type: " ++ pyLower (splitextExt "malware.exe") },
        emptyFS) :=
  c3_disallowed_skip "malware.exe" "aGk=" "out" dateW .ok emptyFS (by decide)

/-- When the extension is allowed, the materializer result is the
already-exists skip, an error, or a save; never the disallowed skip. -/
theorem save_attachment_status_allowed (filename data output_dir : String) (email_date : Date)
    (w : WriteOutcome) (fs : FS)
    (h : ALLOWED_EXTENSIONS.contains (pyLower (splitextExt filename)) = true) :
    (save_attachment filename data output_dir email_date w fs).1
        = { status := Status.Skipped, details := "File already exists" }
    ∨ (save_attachment filename data output_dir email_date w fs).1.status = Status.Error
    ∨ (save_attachment filename data output_dir email_date w fs).1.status = Status.Saved := by
  simp only [save_attachment]
  split
  case isTrue hf =>
    rw [h] at hf
    exact absurd hf (by decide)
  case isFalse hf =>
    repeat' split
    all_goals first
      | exact Or.inl rfl
      | exact Or.inr (Or.inl rfl)
      | exact Or.inr (Or.inr rfl)

theorem file_exists_ne_disallowed (x : String) :
    ("File already exists" : String) ≠ "Disallowed type: " ++ x := by
  intro h
  have h2 : ("File already exists" : String).data = ("Disallowed type: " ++ x).data := by rw [h]
  have h3 : some 'F' = some 'D' := congrArg List.head? h2
  simp at h3

/-- Claim C10: the allow-list decision is taken on the lowercased
extension: the result of save_attachment is the disallowed-type skip
exactly when the lowercased splitext extension is outside the
allow-list, for every payload, destination and filesystem. -/
theorem c10_case_insensitive_allowlist (filename data output_dir : String) (email_date : Date)
    (w : WriteOutcome) (fs : FS) :
    (save_attachment filename data output_dir email_date w fs).1 =
        { status := Status.Skipped,
          details := "Disallowed type: " ++ pyLower (splitextExt filename) }
      ↔ ALLOWED_EXTENSIONS.contains (pyLower (splitextExt filename)) = false := by
  constructor
  · intro h
    cases hb : ALLOWED_EXTENSIONS.contains (pyLower (splitextExt filename)) with
    | false => rfl
    | true =>
      exfalso
      rcases save_attachment_status_allowed filename data output_dir email_date w fs hb
        with h1 | h1 | h1
      · rw [h] at h1
        exact file_exists_ne_disallowed _ (congrArg SaveResult.details h1).symm
      · rw [h] at h1
        simp at h1
      · rw [h] at h1
        simp at h1
  · intro h
    have hnot : pyLower (splitextExt filename) ∉ ALLOWED_EXTENSIONS := by
      simpa [List.contains] using h
    simp [save_attachment, hnot]

/-- Witness for C10: a filename differing from an allowed extension only
in letter case is not skipped as a disallowed type. -/
theorem c10_witness :
    ¬ ((save_attachment "INVOICE.PDF" "aGk=" "out" dateW .ok emptyFS).1 =
        { status := Status.Skipped,
          details := "Disallowed type: " ++ pyLower (splitextExt "INVOICE.PDF") }) := by
  rw [c10_case_insensitive_allowlist "INVOICE.PDF" "aGk=" "out" dateW .ok emptyFS]
  decide

/-! ### Destination paths and idempotence -/

theorem mem_pyStrip {c : Char} {s : String} (h : c ∈ (pyStrip s).data) : c ∈ s.data := by
  simp only [pyStrip] at h
  rw [List.mem_reverse] at h
  have h2 := (List.dropWhile_sublist _).subset h
  rw [List.mem_reverse] at h2
  exact (List.dropWhile_sublist _).subset h2

theorem sanitize_chars (fn : String) :
    ∀ c ∈ (sanitizeFilename fn).data, pyIsAlnum c = true ∨ c ∈ ['.', '_', '-'] := by
  intro c hc
  have h1 : c ∈ fn.data.filter (fun c => pyIsAlnum c || decide (c ∈ ['.', '_', '-'])) :=
    mem_pyStrip hc
  have h2 := List.of_mem_filter h1
  simpa using h2

/-! Equations characterizing the five outcomes of save_attachment. -/

theorem save_attachment_eq_skip_disallowed (fn data out : String) (d : Date) (w : WriteOutcome)
    (fs : FS) (h : ALLOWED_EXTENSIONS.contains (pyLower (splitextExt fn)) = false) :
    save_attachment fn data out d w fs
      = ({ status := .Skipped, details := "Disallowed type: " ++ pyLower (splitextExt fn) },
          fs) := by
  simp only [save_attachment]
  rw [if_pos h]

theorem save_attachment_eq_exists (fn data out : String) (d : Date) (w : WriteOutcome) (fs : FS)
    (h : ALLOWED_EXTENSIONS.contains (pyLower (splitextExt fn)) = true)
    (hex : (ensureDir fs (attachmentStructuredDir out d)).existsFile (attachmentDestPath fn out d)
      = true) :
    save_attachment fn data out d w fs
      = ({ status := .Skipped, details := "File already exists" },
          ensureDir fs (attachmentStructuredDir out d)) := by
  simp only [save_attachment]
  rw [if_neg (by intro hc; rw [h] at hc; exact absurd hc (by decide)), if_pos hex]

theorem save_attachment_eq_decode_error (fn data out : String) (d : Date) (w : WriteOutcome)
    (fs : FS) (h : ALLOWED_EXTENSIONS.contains (pyLower (splitextExt fn)) = true)
    (hexf : (ensureDir fs (attachmentStructuredDir out d)).existsFile (attachmentDestPath fn out d)
      = false)
    (m : String) (hdec : urlsafe_b64decode data = .error m) :
    save_attachment fn data out d w fs
      = ({ status := .Error, details := m }, ensureDir fs (attachmentStructuredDir out d)) := by
  simp only [save_attachment]
  rw [if_neg (by intro hc; rw [h] at hc; exact absurd hc (by decide)),
    if_neg (by intro hc; rw [hexf] at hc; exact absurd hc (by decide)), hdec]

theorem save_attachment_eq_saved (fn data out : String) (d : Date) (fs : FS)
    (h : ALLOWED_EXTENSIONS.contains (pyLower (splitextExt fn)) = true)
    (hexf : (ensureDir fs (attachmentStructuredDir out d)).existsFile (attachmentDestPath fn out d)
      = false)
    (bs : List Nat) (hdec : urlsafe_b64decode data = .ok bs) :
    save_attachment fn data out d .ok fs
      = ({ status := .Saved, details := relpathUnder out (attachmentDestPath fn out d) },
          (ensureDir fs (attachmentStructuredDir out d)).writeFile (attachmentDestPath fn out d)
            bs) := by
  simp only [save_attachment]
  rw [if_neg (by intro hc; rw [h] at hc; exact absurd hc (by decide)),
    if_neg (by intro hc; rw [hexf] at hc; exact absurd hc (by decide)), hdec]

theorem save_attachment_eq_write_fail (fn data out : String) (d : Date) (fs : FS)
    (h : ALLOWED_EXTENSIONS.contains (pyLower (splitextExt fn)) = true)
    (hexf : (ensureDir fs (attachmentStructuredDir out d)).existsFile (attachmentDestPath fn out d)
      = false)
    (bs tb : List Nat) (m : String) (hdec : urlsafe_b64decode data = .ok bs) :
    save_attachment fn data out d (.fail tb m) fs
      = ({ status := .Error, details := m },
          (ensureDir fs (attachmentStructuredDir out d)).writeFile (attachmentDestPath fn out d)
            tb) := by
  simp only [save_attachment]
  rw [if_neg (by intro hc; rw [h] at hc; exact absurd hc (by decide)),
    if_neg (by intro hc; rw [hexf] at hc; exact absurd hc (by decide)), hdec]

/-- A Saved result leaves the destination file in place, and can only
arise for an allowed extension. -/
theorem save_attachment_saved_fs (fn data out : String) (d : Date) (w : WriteOutcome) (fs : FS)
    (hsaved : (save_attachment fn data out d w fs).1.status = Status.Saved) :
    ((save_attachment fn data out d w fs).2).existsFile (attachmentDestPath fn out d) = true
    ∧ ALLOWED_EXTENSIONS.contains (pyLower (splitextExt fn)) = true := by
  by_cases hextf : ALLOWED_EXTENSIONS.contains (pyLower (splitextExt fn)) = false
  · rw [save_attachment_eq_skip_disallowed fn data out d w fs hextf] at hsaved
    simp at hsaved
  · have hext : ALLOWED_EXTENSIONS.contains (pyLower (splitextExt fn)) = true := by
      revert hextf
      cases ALLOWED_EXTENSIONS.contains (pyLower (splitextExt fn)) <;> simp
    refine ⟨?_, hext⟩
    by_cases hex : (ensureDir fs (attachmentStructuredDir out d)).existsFile
        (attachmentDestPath fn out d) = true
    · rw [save_attachment_eq_exists fn data out d w fs hext hex] at hsaved
      simp at hsaved
    · have hexf : (ensureDir fs (attachmentStructuredDir out d)).existsFile
          (attachmentDestPath fn out d) = false := by
        revert hex
        cases (ensureDir fs (attachmentStructuredDir out d)).existsFile
          (attachmentDestPath fn out d) <;> simp
      cases hdec : urlsafe_b64decode data with
      | error m =>
        rw [save_attachment_eq_decode_error fn data out d w fs hext hexf m hdec] at hsaved
        simp at hsaved
      | ok bs =>
        cases w with
        | ok =>
          rw [save_attachment_eq_saved fn data out d fs hext hexf bs hdec]
          exact FS.existsFile_writeFile_self _ _ _
        | fail tb m =>
          rw [save_attachment_eq_write_fail fn data out d fs hext hexf bs tb m hdec] at hsaved
          simp at hsaved

/-- A second materialization of the same filename and date against a
filesystem already holding the destination file is skipped. -/
theorem save_attachment_second_skip (fn data2 out : String) (d : Date) (w2 : WriteOutcome)
    (fs2 : FS)
    (hex : fs2.existsFile (attachmentDestPath fn out d) = true)
    (hext : ALLOWED_EXTENSIONS.contains (pyLower (splitextExt fn)) = true) :
    (save_attachment fn data2 out d w2 fs2).1
      = { status := Status.Skipped, details := "File already exists" } := by
  simp only [save_attachment]
  split
  case isTrue hf =>
    rw [hext] at hf
    exact absurd hf (by decide)
  case isFalse hf =>
    have hfs1 : (ensureDir fs2 (attachmentStructuredDir out d)).existsFile
        (attachmentDestPath fn out d) = true := by
      rw [existsFile_ensureDir]
      exact hex
    rw [if_pos hfs1]

/-- Claim C4 (amended): the destination path is
root/downloads/year/month-2-digit/attachments/date_sanitized-name, a
deterministic function of filename, root and date; sanitization keeps
only alphanumerics, dot, underscore and hyphen, with the fixed fallback
name carrying the extension when everything is stripped; and once a
materialization Saved the file, materializing the same filename and
date again is skipped because the file already exists. -/
theorem c4_path_deterministic_idempotent (fn data data2 out : String) (d : Date)
    (w w2 : WriteOutcome) (fs : FS) :
    (attachmentDestPath fn out d
        = out ++ "/downloads/" ++ toString d.year ++ "/" ++ pad2 d.month ++ "/attachments/"
            ++ Date.ymd d ++ "_" ++ attachmentSafeName fn)
    ∧ (∀ c ∈ (sanitizeFilename fn).data, pyIsAlnum c = true ∨ c ∈ ['.', '_', '-'])
    ∧ (sanitizeFilename fn = "" →
        attachmentSafeName fn = "unnamed_attachment" ++ pyLower (splitextExt fn))
    ∧ ((save_attachment fn data out d w fs).1.status = Status.Saved →
        (save_attachment fn data2 out d w2 (save_attachment fn data out d w fs).2).1
          = { status := Status.Skipped, details := "File already exists" }) := by
  refine ⟨?_, sanitize_chars fn, ?_, ?_⟩
  · apply String.ext
    simp [attachmentDestPath, attachmentStructuredDir]
  · intro h
    simp [attachmentSafeName, h]
  · intro hsaved
    obtain ⟨hex, hext⟩ := save_attachment_saved_fs fn data out d w fs hsaved
    exact save_attachment_second_skip fn data2 out d w2 _ hex hext

/-- Witness for C4: saving invoice.pdf and then materializing the same
pair again yields the already-exists skip. -/
theorem c4_witness :
    (save_attachment "invoice.pdf" "aGk=" "out" dateW .ok
        (save_attachment "invoice.pdf" "aGk=" "out" dateW .ok emptyFS).2).1
      = { status := Status.Skipped, details := "File already exists" } :=
  (c4_path_deterministic_idempotent "invoice.pdf" "aGk=" "aGk=" "out" dateW .ok .ok
    emptyFS).2.2.2 (by decide)

/-! ### Error paths of the materializer -/

/-- Claim C5 (amended): when decoding or the raw write fails,
save_attachment returns Error carrying the failure message and
processing can continue; a decode failure leaves no file at the
destination, but a write failure leaves the truncated file visible at
the destination path, because the implementation writes directly to the
final path. -/
theorem c5_error_paths (fn data out : String) (d : Date) (fs : FS)
    (hext : ALLOWED_EXTENSIONS.contains (pyLower (splitextExt fn)) = true)
    (hnew : fs.existsFile (attachmentDestPath fn out d) = false) :
    (∀ m w, urlsafe_b64decode data = .error m →
      (save_attachment fn data out d w fs).1 = { status := Status.Error, details := m }
      ∧ ((save_attachment fn data out d w fs).2).fileAt (attachmentDestPath fn out d) = none)
    ∧ (∀ bs tb m, urlsafe_b64decode data = .ok bs →
      (save_attachment fn data out d (.fail tb m) fs).1 = { status := Status.Error, details := m }
      ∧ ((save_attachment fn data out d (.fail tb m) fs).2).fileAt (attachmentDestPath fn out d)
          = some tb) := by
  have hfs1ex : (ensureDir fs (attachmentStructuredDir out d)).existsFile
      (attachmentDestPath fn out d) = false := by
    rw [existsFile_ensureDir]
    exact hnew
  have hfs1at : (ensureDir fs (attachmentStructuredDir out d)).fileAt
      (attachmentDestPath fn out d) = none := (FS.existsFile_eq_false_iff _ _).mp hfs1ex
  constructor
  · intro m w hdec
    rw [save_attachment_eq_decode_error fn data out d w fs hext hfs1ex m hdec]
    exact ⟨rfl, hfs1at⟩
  · intro bs tb m hdec
    rw [save_attachment_eq_write_fail fn data out d fs hext hfs1ex bs tb m hdec]
    exact ⟨rfl, FS.fileAt_writeFile_self _ _ _⟩

/-- Witness for C5 at a concrete undecodable payload. -/
theorem c5_witness :
    (save_attachment "a.pdf" "ab" "out" dateW .ok emptyFS).1
        = { status := Status.Error, details := "Incorrect padding" }
    ∧ ((save_attachment "a.pdf" "ab" "out" dateW .ok emptyFS).2).fileAt
        (attachmentDestPath "a.pdf" "out" dateW) = none :=
  (c5_error_paths "a.pdf" "ab" "out" dateW emptyFS (by decide) (by decide)).1
    "Incorrect padding" .ok (by decide)

/-! ### Step lemmas for the sync engine -/

theorem attachIds_append (a b : List Event) : attachIds (a ++ b) = attachIds a ++ attachIds b :=
  List.filterMap_append a b _

theorem matIds_append (a b : List Event) : matIds (a ++ b) = matIds a ++ matIds b :=
  List.filterMap_append a b _

theorem stepOk_refl (cfg : Config) (st : RunState) : StepOk cfg st st :=
  ⟨⟨[], by simp, by simp⟩, fun _ h => h, fun _ => rfl, id⟩

theorem stepOk_trans {cfg : Config} {st1 st2 st3 : RunState}
    (h1 : StepOk cfg st1 st2) (h2 : StepOk cfg st2 st3) : StepOk cfg st1 st3 := by
  obtain ⟨⟨d1, hd1, hn1⟩, hs1, hp1, hi1⟩ := h1
  obtain ⟨⟨d2, hd2, hn2⟩, hs2, hp2, hi2⟩ := h2
  refine ⟨⟨d1 ++ d2, by rw [hd2, hd1, List.append_assoc], ?_⟩,
    fun a ha => hs2 a (hs1 a ha), fun h => (hp2 h).trans (hp1 h), fun h => hi2 (hi1 h)⟩
  intro e he
  rcases List.mem_append.mp he with h | h
  · exact hn1 e h
  · exact hn2 e h

theorem processPart_stepOk (cfg : Config) (env : Env) (tid mid : String) (d : Date)
    (subj : String) (st : RunState) (p : Part) :
    StepOk cfg st (processPart cfg env tid mid d subj st p) := by
  unfold processPart
  split
  case isFalse => exact stepOk_refl _ _
  case isTrue hcond =>
    obtain ⟨hfn, haid, hnot⟩ := hcond
    split
    case isTrue hdry =>
      refine ⟨⟨_, rfl, ?_⟩, fun b hb => List.mem_append.mpr (Or.inl hb), fun _ => rfl, ?_⟩
      · intro e he
        rw [List.mem_singleton] at he
        subst he
        rfl
      · rintro ⟨h1, h2, h3⟩
        refine ⟨?_, ?_, ?_⟩
        · rw [attachIds_append, h1]
          rfl
        · rw [matIds_append, h2, if_pos hdry, if_pos hdry]
          rfl
        · simp only [List.nodup_append, List.nodup_singleton, true_and]
          exact ⟨h3, by simpa using hnot⟩
    case isFalse hdry =>
      refine ⟨⟨_, rfl, ?_⟩, fun b hb => List.mem_append.mpr (Or.inl hb), fun hd => absurd hd hdry,
        ?_⟩
      · intro e he
        rcases List.mem_cons.mp he with rfl | he2
        · rfl
        · rw [List.mem_singleton] at he2
          subst he2
          rfl
      · rintro ⟨h1, h2, h3⟩
        refine ⟨?_, ?_, ?_⟩
        · rw [attachIds_append, h1]
          rfl
        · rw [matIds_append, h2, if_neg hdry, if_neg hdry]
          rfl
        · simp only [List.nodup_append, List.nodup_singleton, true_and]
          exact ⟨h3, by simpa using hnot⟩

theorem processParts_stepOk (cfg : Config) (env : Env) (tid mid : String) (d : Date)
    (subj : String) (ps : List Part) (st : RunState) :
    StepOk cfg st (processParts cfg env tid mid d subj st ps) := by
  induction ps generalizing st with
  | nil => exact stepOk_refl _ _
  | cons p ps ih =>
    exact stepOk_trans (processPart_stepOk cfg env tid mid d subj st p) (ih _)

theorem processReport_stepOk (cfg : Config) (env : Env) (st : RunState) (m : Message) :
    StepOk cfg st (processReport cfg env st m) := by
  unfold processReport
  split
  case isFalse => exact stepOk_refl _ _
  case isTrue =>
    refine ⟨⟨_, rfl, ?_⟩, fun b hb => hb, fun _ => rfl, ?_⟩
    · intro e he
      rw [List.mem_singleton] at he
      subst he
      rfl
    · rintro ⟨h1, h2, h3⟩
      refine ⟨?_, ?_, h3⟩
      · rw [attachIds_append, h1]
        simp [attachIds]
      · rw [matIds_append, h2]
        cases cfg.dry_run <;> simp [matIds]

theorem processMessage_stepOk (cfg : Config) (env : Env) (tid : String) (st : RunState)
    (m : Message) : StepOk cfg st (processMessage cfg env tid st m) :=
  stepOk_trans (processReport_stepOk cfg env st m) (processParts_stepOk _ _ _ _ _ _ _ _)

theorem processMessages_stepOk (cfg : Config) (env : Env) (tid : String) (ms : List Message)
    (st : RunState) : StepOk cfg st (processMessages cfg env tid st ms) := by
  induction ms generalizing st with
  | nil => exact stepOk_refl _ _
  | cons m ms ih =>
    exact stepOk_trans (processMessage_stepOk cfg env tid st m) (ih _)

theorem commitThread_stepOk (cfg : Config) (st : RunState) (tid : String) :
    StepOk cfg st (commitThread cfg st tid) := by
  unfold commitThread
  split
  case isTrue => exact stepOk_refl _ _
  case isFalse hdry =>
    exact ⟨⟨[], by simp, by simp⟩, fun b hb => hb, fun hd => absurd hd hdry, id⟩

theorem processThread_stepOk (cfg : Config) (env : Env) (st : RunState) (t : Thread) :
    StepOk cfg st (processThread cfg env st t) :=
  stepOk_trans (processMessages_stepOk cfg env t.id t.messages st)
    (commitThread_stepOk cfg _ t.id)

theorem processThreads_stepOk (cfg : Config) (env : Env) (ts : List Thread) (st : RunState) :
    StepOk cfg st (processThreads cfg env st ts) := by
  induction ts generalizing st with
  | nil => exact stepOk_refl _ _
  | cons t ts ih =>
    exact stepOk_trans (processThread_stepOk cfg env st t) (ih _)

/-! ### Reachability of every eligible part -/

theorem processPart_hit (cfg : Config) (env : Env) (tid mid : String) (d : Date) (subj : String)
    (st : RunState) (p : Part) (hfn : p.filename ≠ "") (haid : p.attachmentId ≠ "") :
    p.attachmentId ∈ (processPart cfg env tid mid d subj st p).seen := by
  unfold processPart
  split
  case isTrue hc =>
    split
    · exact List.mem_append.mpr (Or.inr (List.mem_singleton.mpr rfl))
    · exact List.mem_append.mpr (Or.inr (List.mem_singleton.mpr rfl))
  case isFalse hc =>
    by_contra hmem
    exact hc ⟨hfn, haid, hmem⟩

theorem processParts_hit (cfg : Config) (env : Env) (tid mid : String) (d : Date) (subj : String)
    (ps : List Part) (st : RunState) (p : Part)
    (hfn : p.filename ≠ "") (haid : p.attachmentId ≠ "") (hp : p ∈ ps) :
    p.attachmentId ∈ (processParts cfg env tid mid d subj st ps).seen := by
  revert hp
  induction ps generalizing st with
  | nil =>
    intro hp
    cases hp
  | cons q qs ih =>
    intro hp
    rcases List.mem_cons.mp hp with heq | hmem
    · subst heq
      exact (processParts_stepOk cfg env tid mid d subj qs _).2.1 _
        (processPart_hit cfg env tid mid d subj st p hfn haid)
    · exact ih _ hmem

theorem processMessage_hit (cfg : Config) (env : Env) (tid : String) (st : RunState)
    (m : Message) (p : Part)
    (hfn : p.filename ≠ "") (haid : p.attachmentId ≠ "") (hp : p ∈ m.parts) :
    p.attachmentId ∈ (processMessage cfg env tid st m).seen :=
  processParts_hit cfg env tid m.id (env.msToDate m.internalDate)
    (headerLookup m.headers "subject" "No Subject") m.parts (processReport cfg env st m) p
    hfn haid hp

theorem commitThread_seen (cfg : Config) (st : RunState) (tid : String) :
    (commitThread cfg st tid).seen = st.seen := by
  unfold commitThread
  split
  · rfl
  · rfl

theorem processMessages_hit (cfg : Config) (env : Env) (tid : String) (ms : List Message)
    (st : RunState) (m : Message) (p : Part)
    (hfn : p.filename ≠ "") (haid : p.attachmentId ≠ "") (hp : p ∈ m.parts) (hm : m ∈ ms) :
    p.attachmentId ∈ (processMessages cfg env tid st ms).seen := by
  revert hm
  induction ms generalizing st with
  | nil =>
    intro hm
    cases hm
  | cons q qs ih =>
    intro hm
    rcases List.mem_cons.mp hm with heq | hmem
    · subst heq
      exact (processMessages_stepOk cfg env tid qs _).2.1 _
        (processMessage_hit cfg env tid st m p hfn haid hp)
    · exact ih _ hmem

theorem processThread_hit (cfg : Config) (env : Env) (st : RunState) (t : Thread) (m : Message)
    (p : Part) (hfn : p.filename ≠ "") (haid : p.attachmentId ≠ "") (hp : p ∈ m.parts)
    (hm : m ∈ t.messages) :
    p.attachmentId ∈ (processThread cfg env st t).seen := by
  unfold processThread
  rw [commitThread_seen]
  exact processMessages_hit cfg env t.id t.messages st m p hfn haid hp hm

theorem processThreads_hit (cfg : Config) (env : Env) (ts : List Thread) (st : RunState)
    (t : Thread) (m : Message) (p : Part)
    (hfn : p.filename ≠ "") (haid : p.attachmentId ≠ "") (hp : p ∈ m.parts)
    (hm : m ∈ t.messages) (ht : t ∈ ts) :
    p.attachmentId ∈ (processThreads cfg env st ts).seen := by
  revert ht
  induction ts generalizing st with
  | nil =>
    intro ht
    cases ht
  | cons q qs ih =>
    intro ht
    rcases List.mem_cons.mp ht with heq | hmem
    · subst heq
      exact (processThreads_stepOk cfg env qs _).2.1 _
        (processThread_hit cfg env st t m p hfn haid hp hm)
    · exact ih _ hmem

/-! ### Facts about the processed state and the run equations -/

theorem stInv_init (cfg : Config) (fs : FS) (processed0 : List String) :
    StInv cfg ⟨[Event.audit none (runStartRow cfg)], fs, [], processed0⟩ :=
  ⟨rfl, by cases cfg.dry_run <;> rfl, List.nodup_nil⟩

theorem runProcessed_stepOk (cfg : Config) (env : Env) (idx : IndexFile) (fs : FS) :
    StepOk cfg ⟨[Event.audit none (runStartRow cfg)], fs, [], initialProcessed cfg idx⟩
      (runProcessed cfg env idx fs) :=
  processThreads_stepOk cfg env (newThreadsOf cfg env idx) _

theorem runProcessed_inv (cfg : Config) (env : Env) (idx : IndexFile) (fs : FS) :
    StInv cfg (runProcessed cfg env idx fs) :=
  (runProcessed_stepOk cfg env idx fs).2.2.2 (stInv_init cfg fs (initialProcessed cfg idx))

theorem runProcessed_no_iw (cfg : Config) (env : Env) (idx : IndexFile) (fs : FS) :
    ∀ e ∈ (runProcessed cfg env idx fs).trace, isIndexWrite e = false := by
  obtain ⟨ds, hds, hnds⟩ := (runProcessed_stepOk cfg env idx fs).1
  rw [hds]
  intro e he
  rcases List.mem_append.mp he with h2 | h2
  · rw [List.mem_singleton] at h2
    subst h2
    rfl
  · exact hnds e h2

theorem runProcessed_processed_dry (cfg : Config) (env : Env) (idx : IndexFile) (fs : FS)
    (hdry : cfg.dry_run = true) :
    (runProcessed cfg env idx fs).processed = initialProcessed cfg idx :=
  (runProcessed_stepOk cfg env idx fs).2.2.1 hdry

theorem run_eq_disconnected (cfg : Config) (env : Env) (idx : IndexFile) (fs : FS)
    (hc : env.connected = false) : run cfg env idx fs = ⟨[], idx, fs, none⟩ := by
  unfold run
  rw [if_pos hc]

theorem run_eq_no_threads (cfg : Config) (env : Env) (idx : IndexFile) (fs : FS)
    (hc : env.connected = true) (he : env.threads.isEmpty = true) :
    run cfg env idx fs =
      ⟨[Event.audit none (runStartRow cfg), .audit none runEndNoThreadsRow], idx, fs, none⟩ := by
  unfold run
  rw [if_neg (by rw [hc]; exact (by decide)), if_pos he]

theorem run_eq_crash (cfg : Config) (env : Env) (idx : IndexFile) (fs : FS)
    (hc : env.connected = true) (he : env.threads.isEmpty = false)
    (hz : (newThreadsOf cfg env idx).length = 0) :
    run cfg env idx fs =
      ⟨[Event.audit none (runStartRow cfg)], idx, fs, some .zeroDivisionError⟩ := by
  unfold run
  rw [if_neg (by rw [hc]; exact (by decide)), if_neg (by rw [he]; exact (by decide)), if_pos hz]

theorem run_eq_fr (cfg : Config) (env : Env) (idx : IndexFile) (fs : FS)
    (hc : env.connected = true) (he : env.threads.isEmpty = false)
    (hz : ¬ (newThreadsOf cfg env idx).length = 0) (hfr : cfg.force_rescan = true) :
    run cfg env idx fs =
      ⟨(runProcessed cfg env idx fs).trace
          ++ [.audit none (runEndRow (newThreadsOf cfg env idx).length)],
        idx, (runProcessed cfg env idx fs).fs, none⟩ := by
  unfold run
  rw [if_neg (by rw [hc]; exact (by decide)), if_neg (by rw [he]; exact (by decide)),
    if_neg hz, if_pos hfr]

theorem run_eq_save (cfg : Config) (env : Env) (idx : IndexFile) (fs : FS)
    (hc : env.connected = true) (he : env.threads.isEmpty = false)
    (hz : ¬ (newThreadsOf cfg env idx).length = 0) (hfr : cfg.force_rescan = false) :
    run cfg env idx fs =
      ⟨(runProcessed cfg env idx fs).trace
          ++ [.indexWrite (runProcessed cfg env idx fs).processed,
              .audit none (runEndRow (newThreadsOf cfg env idx).length)],
        .valid (runProcessed cfg env idx fs).processed, (runProcessed cfg env idx fs).fs,
        none⟩ := by
  unfold run
  rw [if_neg (by rw [hc]; exact (by decide)), if_neg (by rw [he]; exact (by decide)),
    if_neg hz, if_neg (by rw [hfr]; exact (by decide))]

/-! ### Trace-count helpers -/

theorem indexWriteCount_append (a b : List Event) :
    indexWriteCount (a ++ b) = indexWriteCount a + indexWriteCount b := by
  simp [indexWriteCount, List.filter_append]

theorem indexWriteCount_eq_zero (tr : List Event) (h : ∀ e ∈ tr, isIndexWrite e = false) :
    indexWriteCount tr = 0 := by
  simp only [indexWriteCount, List.length_eq_zero]
  rw [List.filter_eq_nil_iff]
  intro a ha
  simp [h a ha]

theorem not_indexWrite_mem (tr : List Event) (h : ∀ e ∈ tr, isIndexWrite e = false)
    (ids : List String) : Event.indexWrite ids ∉ tr := by
  intro hmem
  have := h _ hmem
  simp [isIndexWrite] at this

theorem attachAfterWrite_append_no_iw (a b : List Event)
    (h : ∀ e ∈ a, isIndexWrite e = false) :
    attachAfterWrite (a ++ b) = attachAfterWrite b := by
  induction a with
  | nil => rfl
  | cons e rest ih =>
    have he := h e (List.mem_cons_self _ _)
    cases e with
    | indexWrite ids => simp [isIndexWrite] at he
    | audit x row => exact ih (fun x hx => h x (List.mem_cons_of_mem _ hx))
    | materialize x => exact ih (fun x hx => h x (List.mem_cons_of_mem _ hx))
    | reportRow x y => exact ih (fun x hx => h x (List.mem_cons_of_mem _ hx))

theorem attachAfterWrite_of_no_iw (tr : List Event) (h : ∀ e ∈ tr, isIndexWrite e = false) :
    attachAfterWrite tr = false := by
  have := attachAfterWrite_append_no_iw tr [] h
  simpa using this

/-- Claim C1 (amended): in every run the index is written at most once,
no attachment is processed after the index write, a write never happens
under forced rescan and always persists exactly the id list recorded in
the write event, and on a dry run any index write persists exactly the
id list loaded at run start — the write itself still happens, which is
what the counterexample shows. -/
theorem c1_index_write_discipline (cfg : Config) (env : Env) (idx : IndexFile) (fs : FS) :
    indexWriteCount (run cfg env idx fs).trace ≤ 1
    ∧ attachAfterWrite (run cfg env idx fs).trace = false
    ∧ (∀ ids, Event.indexWrite ids ∈ (run cfg env idx fs).trace →
        cfg.force_rescan = false ∧ (run cfg env idx fs).indexFile = .valid ids)
    ∧ (cfg.dry_run = true → ∀ ids, Event.indexWrite ids ∈ (run cfg env idx fs).trace →
        ids = initialProcessed cfg idx) := by
  by_cases hc : env.connected = false
  · rw [run_eq_disconnected cfg env idx fs hc]
    refine ⟨by simp [indexWriteCount], rfl, ?_, ?_⟩
    · intro ids h
      cases h
    · intro _ ids h
      cases h
  · have hc2 : env.connected = true := by
      revert hc
      cases env.connected <;> simp
    have hnoiw2 : ∀ (r1 r2 : AuditRow) (e : Event),
        e ∈ [Event.audit none r1, Event.audit none r2] → isIndexWrite e = false := by
      intro r1 r2 e he
      rcases List.mem_cons.mp he with rfl | he2
      · rfl
      · rw [List.mem_singleton] at he2
        subst he2
        rfl
    by_cases he : env.threads.isEmpty
    · rw [run_eq_no_threads cfg env idx fs hc2 he]
      refine ⟨indexWriteCount_eq_zero _ (hnoiw2 _ _) |>.le.trans (by decide),
        attachAfterWrite_of_no_iw _ (hnoiw2 _ _), ?_, ?_⟩
      · intro ids h
        exact absurd h (not_indexWrite_mem _ (hnoiw2 _ _) ids)
      · intro _ ids h
        exact absurd h (not_indexWrite_mem _ (hnoiw2 _ _) ids)
    · have he2 : env.threads.isEmpty = false := by
        revert he
        cases env.threads.isEmpty <;> simp
      have hnoiw1 : ∀ (r1 : AuditRow) (e : Event),
          e ∈ [Event.audit none r1] → isIndexWrite e = false := by
        intro r1 e he
        rw [List.mem_singleton] at he
        subst he
        rfl
      by_cases hz : (newThreadsOf cfg env idx).length = 0
      · rw [run_eq_crash cfg env idx fs hc2 he2 hz]
        refine ⟨indexWriteCount_eq_zero _ (hnoiw1 _) |>.le.trans (by decide),
          attachAfterWrite_of_no_iw _ (hnoiw1 _), ?_, ?_⟩
        · intro ids h
          exact absurd h (not_indexWrite_mem _ (hnoiw1 _) ids)
        · intro _ ids h
          exact absurd h (not_indexWrite_mem _ (hnoiw1 _) ids)
      · have hno := runProcessed_no_iw cfg env idx fs
        by_cases hfr : cfg.force_rescan = true
        · rw [run_eq_fr cfg env idx fs hc2 he2 hz hfr]
          have htail : ∀ e ∈ [Event.audit none (runEndRow (newThreadsOf cfg env idx).length)],
              isIndexWrite e = false := hnoiw1 _
          have hwhole : ∀ e ∈ (runProcessed cfg env idx fs).trace
              ++ [Event.audit none (runEndRow (newThreadsOf cfg env idx).length)],
              isIndexWrite e = false := by
            intro e hee
            rcases List.mem_append.mp hee with h2 | h2
            · exact hno e h2
            · exact htail e h2
          refine ⟨indexWriteCount_eq_zero _ hwhole |>.le.trans (by decide),
            attachAfterWrite_of_no_iw _ hwhole, ?_, ?_⟩
          · intro ids h
            exact absurd h (not_indexWrite_mem _ hwhole ids)
          · intro _ ids h
            exact absurd h (not_indexWrite_mem _ hwhole ids)
        · have hfr2 : cfg.force_rescan = false := by
            revert hfr
            cases cfg.force_rescan <;> simp
          rw [run_eq_save cfg env idx fs hc2 he2 hz hfr2]
          have hmemiw : ∀ ids, Event.indexWrite ids ∈ (runProcessed cfg env idx fs).trace
              ++ [Event.indexWrite (runProcessed cfg env idx fs).processed,
                  Event.audit none (runEndRow (newThreadsOf cfg env idx).length)] →
              ids = (runProcessed cfg env idx fs).processed := by
            intro ids h
            rcases List.mem_append.mp h with h2 | h2
            · exact absurd h2 (not_indexWrite_mem _ hno ids)
            · rcases List.mem_cons.mp h2 with heq | h3
              · injection heq
              · rw [List.mem_singleton] at h3
                cases h3
          refine ⟨?_, ?_, ?_, ?_⟩
          · rw [indexWriteCount_append, indexWriteCount_eq_zero _ hno]
            simp [indexWriteCount, isIndexWrite, List.filter]
          · rw [attachAfterWrite_append_no_iw _ _ hno]
            rfl
          · intro ids h
            have hids := hmemiw ids h
            subst hids
            exact ⟨hfr2, rfl⟩
          · intro hdry ids h
            have hids := hmemiw ids h
            subst hids
            exact runProcessed_processed_dry cfg env idx fs hdry

/-- Witness for C1: a dry run with a loaded index of one id writes
exactly that id list back. -/
theorem c1_witness : (["x"] : List String) = initialProcessed cfgWDry (.valid ["x"]) :=
  (c1_index_write_discipline cfgWDry envW (.valid ["x"]) emptyFS).2.2.2 rfl ["x"] (by decide)

/-- Claim C2: within one run, for every attachment id the materializer
is invoked at most once; and when the id is carried (with a truthy
filename) by some part of a message of a new thread, exactly one
Attachment Process audit row is emitted for it, with exactly one
materializer invocation unless the run is dry. -/
theorem c2_attachment_dedup (cfg : Config) (env : Env) (idx : IndexFile) (fs : FS) (a : String) :
    (matIds (run cfg env idx fs).trace).count a ≤ 1
    ∧ (env.connected = true → a ≠ "" →
        (∃ t ∈ newThreadsOf cfg env idx, ∃ m ∈ t.messages, ∃ p ∈ m.parts,
          p.filename ≠ "" ∧ p.attachmentId = a) →
        (attachIds (run cfg env idx fs).trace).count a = 1
        ∧ (matIds (run cfg env idx fs).trace).count a = (if cfg.dry_run then 0 else 1)) := by
  by_cases hc : env.connected = false
  · rw [run_eq_disconnected cfg env idx fs hc]
    refine ⟨by simp [matIds], ?_⟩
    intro hcon
    exact absurd hcon (by simp [hc])
  · have hc2 : env.connected = true := by
      revert hc
      cases env.connected <;> simp
    by_cases he : env.threads.isEmpty
    · rw [run_eq_no_threads cfg env idx fs hc2 he]
      have hnil : newThreadsOf cfg env idx = [] := by
        unfold newThreadsOf
        rw [List.isEmpty_iff.mp he]
        rfl
      refine ⟨?_, ?_⟩
      · have hmr : matIds [Event.audit none (runStartRow cfg),
            Event.audit none runEndNoThreadsRow] = [] := rfl
        rw [hmr]
        simp
      · rintro _ _ ⟨t, ht, _⟩
        rw [hnil] at ht
        cases ht
    · have he2 : env.threads.isEmpty = false := by
        revert he
        cases env.threads.isEmpty <;> simp
      by_cases hz : (newThreadsOf cfg env idx).length = 0
      · rw [run_eq_crash cfg env idx fs hc2 he2 hz]
        refine ⟨?_, ?_⟩
        · have hmr : matIds [Event.audit none (runStartRow cfg)] = [] := rfl
          rw [hmr]
          simp
        · rintro _ _ ⟨t, ht, _⟩
          rw [List.length_eq_zero.mp hz] at ht
          cases ht
      · obtain ⟨h1, h2, h3⟩ := runProcessed_inv cfg env idx fs
        have hcounts : ∀ tail : List Event, attachIds tail = [] → matIds tail = [] →
            (matIds ((runProcessed cfg env idx fs).trace ++ tail)).count a ≤ 1
            ∧ (a ≠ "" →
              (∃ t ∈ newThreadsOf cfg env idx, ∃ m ∈ t.messages, ∃ p ∈ m.parts,
                p.filename ≠ "" ∧ p.attachmentId = a) →
              (attachIds ((runProcessed cfg env idx fs).trace ++ tail)).count a = 1
              ∧ (matIds ((runProcessed cfg env idx fs).trace ++ tail)).count a
                  = (if cfg.dry_run then 0 else 1)) := by
          intro tail hta htm
          have ha1 : attachIds ((runProcessed cfg env idx fs).trace ++ tail)
              = (runProcessed cfg env idx fs).seen := by
            rw [attachIds_append, h1, hta, List.append_nil]
          have hm1 : matIds ((runProcessed cfg env idx fs).trace ++ tail)
              = (if cfg.dry_run = true then [] else (runProcessed cfg env idx fs).seen) := by
            rw [matIds_append, h2, htm, List.append_nil]
          refine ⟨?_, ?_⟩
          · rw [hm1]
            by_cases hdry : cfg.dry_run = true
            · rw [if_pos hdry]
              simp
            · rw [if_neg hdry]
              exact List.nodup_iff_count_le_one.mp h3 a
          · rintro ha ⟨t, ht, m, hm, p, hp, hfn, hpa⟩
            have haid : p.attachmentId ≠ "" := by
              rw [hpa]
              exact ha
            have hseen : a ∈ (runProcessed cfg env idx fs).seen := by
              rw [← hpa]
              exact processThreads_hit cfg env (newThreadsOf cfg env idx) _ t m p hfn haid hp
                hm ht
            refine ⟨?_, ?_⟩
            · rw [ha1]
              exact List.count_eq_one_of_mem h3 hseen
            · rw [hm1]
              by_cases hdry : cfg.dry_run = true
              · rw [if_pos hdry, if_pos hdry]
                simp
              · rw [if_neg hdry, if_neg hdry]
                exact List.count_eq_one_of_mem h3 hseen
        by_cases hfr : cfg.force_rescan = true
        · rw [run_eq_fr cfg env idx fs hc2 he2 hz hfr]
          obtain ⟨hle, hex⟩ := hcounts
            [Event.audit none (runEndRow (newThreadsOf cfg env idx).length)] rfl rfl
          exact ⟨hle, fun _ => hex⟩
        · have hfr2 : cfg.force_rescan = false := by
            revert hfr
            cases cfg.force_rescan <;> simp
          rw [run_eq_save cfg env idx fs hc2 he2 hz hfr2]
          obtain ⟨hle, hex⟩ := hcounts
            [Event.indexWrite (runProcessed cfg env idx fs).processed,
             Event.audit none (runEndRow (newThreadsOf cfg env idx).length)] rfl rfl
          exact ⟨hle, fun _ => hex⟩

/-- Witness for C2: one thread whose two messages both reference
attachment id A1 yields one audit row and one materialization. -/
theorem c2_witness :
    (attachIds (run cfgW envW .absent emptyFS).trace).count "A1" = 1
    ∧ (matIds (run cfgW envW .absent emptyFS).trace).count "A1"
        = (if cfgW.dry_run then 0 else 1) :=
  (c2_attachment_dedup cfgW envW .absent emptyFS "A1").2 rfl (by decide) (by decide)

/-- Claim C7: with a connected source, no forced rescan, a non-empty
thread listing all of whose ids are already indexed, the run raises
ZeroDivisionError inside the initial progress display instead of
returning early: nothing is processed and the index is untouched, but
an exception escapes. -/
theorem c7_zero_new_threads_crash (cfg : Config) (env : Env) (idx : IndexFile) (fs : FS)
    (hc : env.connected = true) (hfr : cfg.force_rescan = false)
    (hne : env.threads ≠ []) (hall : ∀ t ∈ env.threads, t.id ∈ loadIndexList idx) :
    (run cfg env idx fs).err = some .zeroDivisionError
    ∧ (run cfg env idx fs).indexFile = idx
    ∧ (run cfg env idx fs).fs = fs
    ∧ attachIds (run cfg env idx fs).trace = [] := by
  have hnew : newThreadsOf cfg env idx = [] := by
    unfold newThreadsOf
    rw [List.filter_eq_nil_iff]
    intro t ht
    have hmem : t.id ∈ initialProcessed cfg idx := by
      unfold initialProcessed
      rw [if_neg (by rw [hfr]; exact (by decide))]
      exact hall t ht
    simp [hmem]
  have he2 : env.threads.isEmpty = false := by
    cases hh : env.threads with
    | nil => exact absurd hh hne
    | cons x xs => rfl
  rw [run_eq_crash cfg env idx fs hc he2 (by rw [hnew]; rfl)]
  exact ⟨rfl, rfl, rfl, rfl⟩

/-- Witness for C7 at a concrete environment whose only thread is
already indexed. -/
theorem c7_witness :
    (run cfgW envW (.valid ["t1"]) emptyFS).err = some RunError.zeroDivisionError
    ∧ (run cfgW envW (.valid ["t1"]) emptyFS).indexFile = .valid ["t1"]
    ∧ (run cfgW envW (.valid ["t1"]) emptyFS).fs = emptyFS
    ∧ attachIds (run cfgW envW (.valid ["t1"]) emptyFS).trace = [] :=
  c7_zero_new_threads_crash cfgW envW (.valid ["t1"]) emptyFS rfl rfl (by decide) (by decide)

/-! ### Characterization of the reset phases -/

theorem mem_addIdOnce {l : List String} {x y : String} :
    x ∈ addIdOnce l y ↔ x ∈ l ∨ x = y := by
  unfold addIdOnce
  split
  case isTrue h =>
    constructor
    · exact Or.inl
    · rintro (h2 | rfl)
      · exact h2
      · exact h
  case isFalse h => simp

theorem resetRowStep_fileAt (out period : String) (st : ResetPhase1State) (row : AuditRow)
    (p : String) :
    (resetRowStep out period st row).fs.fileAt p =
      if (rowMatches period row && decide (p = out ++ "/" ++ row.details)) = true then none
      else st.fs.fileAt p := by
  unfold resetRowStep
  by_cases hm : rowMatches period row = true
  · by_cases hp : p = out ++ "/" ++ row.details
    · by_cases hex : st.fs.existsFile (out ++ "/" ++ row.details) = true
      · simp [hm, hp, hex, FS.fileAt_removeFile]
      · have hex2 : st.fs.existsFile (out ++ "/" ++ row.details) = false := by
          revert hex
          cases st.fs.existsFile (out ++ "/" ++ row.details) <;> simp
        simp [hm, hp, hex2]
        exact (FS.existsFile_eq_false_iff _ _).mp hex2
    · have hne : ¬ (out ++ "/" ++ row.details = p) := fun hq => hp hq.symm
      by_cases hex : st.fs.existsFile (out ++ "/" ++ row.details) = true
      · simp [hm, hp, hex, FS.fileAt_removeFile, hne]
      · have hex2 : st.fs.existsFile (out ++ "/" ++ row.details) = false := by
          revert hex
          cases st.fs.existsFile (out ++ "/" ++ row.details) <;> simp
        simp [hm, hp, hex2]
  · have hm2 : rowMatches period row = false := by
      revert hm
      cases rowMatches period row <;> simp
    simp [hm2]

theorem resetRowStep_tids (out period : String) (st : ResetPhase1State) (row : AuditRow) :
    (resetRowStep out period st row).tids =
      if rowMatches period row = true then addIdOnce st.tids row.threadId else st.tids := by
  unfold resetRowStep
  by_cases hm : rowMatches period row = true
  · rw [if_pos hm, if_pos hm]
  · rw [if_neg hm, if_neg hm]

theorem resetRowStep_fs_sub (out period : String) (st : ResetPhase1State) (row : AuditRow) :
    (resetRowStep out period st row).fs.files.Sublist st.fs.files
    ∧ (resetRowStep out period st row).fs.dirs = st.fs.dirs := by
  unfold resetRowStep
  split
  · constructor
    · show (if st.fs.existsFile (out ++ "/" ++ row.details) = true then
          st.fs.removeFile (out ++ "/" ++ row.details) else st.fs).files.Sublist st.fs.files
      split
      · exact List.filter_sublist _
      · exact List.Sublist.refl _
    · show (if st.fs.existsFile (out ++ "/" ++ row.details) = true then
          st.fs.removeFile (out ++ "/" ++ row.details) else st.fs).dirs = st.fs.dirs
      split
      · rfl
      · rfl
  · exact ⟨List.Sublist.refl _, rfl⟩

theorem resetAttachRows_fileAt (out period : String) (rows : List AuditRow)
    (st : ResetPhase1State) (p : String) :
    (resetAttachRows out period st rows).fs.fileAt p =
      if rows.any (fun row => rowMatches period row && decide (p = out ++ "/" ++ row.details))
          = true then none
      else st.fs.fileAt p := by
  induction rows generalizing st with
  | nil => simp [resetAttachRows]
  | cons row rest ih =>
    show (resetAttachRows out period (resetRowStep out period st row) rest).fs.fileAt p = _
    rw [ih, List.any_cons]
    by_cases hP : (rowMatches period row && decide (p = out ++ "/" ++ row.details)) = true
    · rw [resetRowStep_fileAt, if_pos hP]
      simp [hP]
    · have hP2 : (rowMatches period row && decide (p = out ++ "/" ++ row.details)) = false := by
        revert hP
        cases (rowMatches period row && decide (p = out ++ "/" ++ row.details)) <;> simp
      rw [resetRowStep_fileAt, if_neg hP, hP2, Bool.false_or]

theorem resetAttachRows_tids (out period : String) (rows : List AuditRow)
    (st : ResetPhase1State) (tid : String) :
    tid ∈ (resetAttachRows out period st rows).tids ↔
      tid ∈ st.tids ∨ ∃ row ∈ rows, rowMatches period row = true ∧ row.threadId = tid := by
  induction rows generalizing st with
  | nil => simp [resetAttachRows]
  | cons row rest ih =>
    show tid ∈ (resetAttachRows out period (resetRowStep out period st row) rest).tids ↔ _
    rw [ih, resetRowStep_tids]
    by_cases hm : rowMatches period row = true
    · rw [if_pos hm]
      rw [mem_addIdOnce]
      simp only [List.mem_cons]
      constructor
      · rintro ((h | rfl) | ⟨r, hr, hmr, htr⟩)
        · exact Or.inl h
        · exact Or.inr ⟨row, Or.inl rfl, hm, rfl⟩
        · exact Or.inr ⟨r, Or.inr hr, hmr, htr⟩
      · rintro (h | ⟨r, hr | hr, hmr, htr⟩)
        · exact Or.inl (Or.inl h)
        · subst hr
          exact Or.inl (Or.inr htr.symm)
        · exact Or.inr ⟨r, hr, hmr, htr⟩
    · rw [if_neg hm]
      simp only [List.mem_cons]
      constructor
      · rintro (h | ⟨r, hr, hmr, htr⟩)
        · exact Or.inl h
        · exact Or.inr ⟨r, Or.inr hr, hmr, htr⟩
      · rintro (h | ⟨r, hr | hr, hmr, htr⟩)
        · exact Or.inl h
        · subst hr
          exact absurd hmr hm
        · exact Or.inr ⟨r, hr, hmr, htr⟩

theorem resetAttachRows_fs_sub (out period : String) (rows : List AuditRow)
    (st : ResetPhase1State) :
    (resetAttachRows out period st rows).fs.files.Sublist st.fs.files
    ∧ (resetAttachRows out period st rows).fs.dirs = st.fs.dirs := by
  induction rows generalizing st with
  | nil => exact ⟨List.Sublist.refl _, rfl⟩
  | cons row rest ih =>
    obtain ⟨hsub, hdirs⟩ := ih (resetRowStep out period st row)
    obtain ⟨hsub2, hdirs2⟩ := resetRowStep_fs_sub out period st row
    exact ⟨hsub.trans hsub2, hdirs.trans hdirs2⟩

theorem resetReportStep_fileAt (out period : String) (st : ResetPhase2State) (name p : String) :
    (resetReportStep out period st name).fs.fileAt p =
      if (reportNameMatches period name && decide (p = out ++ "/reports/" ++ name)) = true
      then none else st.fs.fileAt p := by
  unfold resetReportStep
  by_cases hm : reportNameMatches period name = true
  · by_cases hp : p = out ++ "/reports/" ++ name
    · by_cases hex : st.fs.existsFile (out ++ "/reports/" ++ name) = true
      · simp [hm, hp, hex, FS.fileAt_removeFile]
      · have hex2 : st.fs.existsFile (out ++ "/reports/" ++ name) = false := by
          revert hex
          cases st.fs.existsFile (out ++ "/reports/" ++ name) <;> simp
        simp [hm, hp, hex2]
        exact (FS.existsFile_eq_false_iff _ _).mp hex2
    · have hne : ¬ (out ++ "/reports/" ++ name = p) := fun hq => hp hq.symm
      by_cases hex : st.fs.existsFile (out ++ "/reports/" ++ name) = true
      · simp [hm, hp, hex, FS.fileAt_removeFile, hne]
      · have hex2 : st.fs.existsFile (out ++ "/reports/" ++ name) = false := by
          revert hex
          cases st.fs.existsFile (out ++ "/reports/" ++ name) <;> simp
        simp [hm, hp, hex2]
  · have hm2 : reportNameMatches period name = false := by
      revert hm
      cases reportNameMatches period name <;> simp
    simp [hm2]

theorem resetReports_fileAt (out period : String) (names : List String)
    (st : ResetPhase2State) (p : String) :
    (resetReports out period st names).fs.fileAt p =
      if names.any (fun n => reportNameMatches period n && decide (p = out ++ "/reports/" ++ n))
          = true then none
      else st.fs.fileAt p := by
  induction names generalizing st with
  | nil => simp [resetReports]
  | cons name rest ih =>
    show (resetReports out period (resetReportStep out period st name) rest).fs.fileAt p = _
    rw [ih, List.any_cons]
    by_cases hP : (reportNameMatches period name && decide (p = out ++ "/reports/" ++ name))
        = true
    · rw [resetReportStep_fileAt, if_pos hP]
      simp [hP]
    · have hP2 : (reportNameMatches period name && decide (p = out ++ "/reports/" ++ name))
          = false := by
        revert hP
        cases (reportNameMatches period name && decide (p = out ++ "/reports/" ++ name)) <;> simp
      rw [resetReportStep_fileAt, if_neg hP, hP2, Bool.false_or]

/-! ### Directory listings -/

theorem stripDirName_eq_some {dir q name : String} :
    stripDirName dir q = some name ↔ q = dir ++ "/" ++ name := by
  unfold stripDirName
  split
  case isTrue h =>
    have hpre : (dir.data ++ ['/']) <+: q.data := List.isPrefixOf_iff_prefix.mp h
    obtain ⟨rest, hrest⟩ := hpre
    have hdrop : q.data.drop (dir.data ++ ['/']).length = rest := by
      rw [← hrest]
      exact List.drop_left _ _
    constructor
    · intro hs
      have hname : (⟨q.data.drop (dir.data ++ ['/']).length⟩ : String) = name := by
        injection hs
      subst hname
      apply String.ext
      show q.data = (dir.data ++ ['/']) ++ q.data.drop (dir.data ++ ['/']).length
      rw [hdrop]
      exact hrest.symm
    · intro hq
      subst hq
      congr 1
      apply String.ext
      show ((dir ++ "/" ++ name).data).drop (dir.data ++ ['/']).length = name.data
      have hd : (dir ++ "/" ++ name).data = (dir.data ++ ['/']) ++ name.data := rfl
      rw [hd]
      exact List.drop_left _ _
  case isFalse h =>
    constructor
    · intro hs
      cases hs
    · intro hq
      exfalso
      apply h
      subst hq
      rw [List.isPrefixOf_iff_prefix]
      exact ⟨name.data, rfl⟩

theorem mem_listdir_iff {fs : FS} {dir name : String} :
    name ∈ fs.listdir dir ↔ ∃ e ∈ fs.files, e.1 = dir ++ "/" ++ name := by
  unfold FS.listdir
  rw [List.mem_filterMap]
  constructor
  · rintro ⟨e, he, hs⟩
    exact ⟨e, he, stripDirName_eq_some.mp hs⟩
  · rintro ⟨e, he, hq⟩
    exact ⟨e, he, stripDirName_eq_some.mpr hq⟩

theorem fileAt_eq_none_of_not_listdir {fs : FS} {dir name : String}
    (h : name ∉ fs.listdir dir) : fs.fileAt (dir ++ "/" ++ name) = none := by
  rw [← FS.existsFile_eq_false_iff]
  cases hex : fs.existsFile (dir ++ "/" ++ name) with
  | false => rfl
  | true =>
    exfalso
    apply h
    rw [mem_listdir_iff]
    obtain ⟨e, he, hp⟩ := List.any_eq_true.mp hex
    exact ⟨e, he, of_decide_eq_true hp⟩

theorem listdir_sublist {fs2 fs : FS} (h : fs2.files.Sublist fs.files) (dir : String) :
    (fs2.listdir dir).Sublist (fs.listdir dir) := h.filterMap _

theorem reportsPath_eq (out name : String) :
    out ++ "/reports/" ++ name = reportsDirOf out ++ "/" ++ name := by
  apply String.ext
  have h1 : ("/reports/" : String).data = ("/reports" : String).data ++ ['/'] := by decide
  show out.data ++ ("/reports/" : String).data ++ name.data
      = ((out.data ++ ("/reports" : String).data) ++ ['/']) ++ name.data
  rw [h1]
  simp [List.append_assoc]

/-! ### The reset result -/

theorem reset_period_fs (out period : String) (rows : List AuditRow) (idx : IndexFile)
    (fs : FS) :
    (reset_period out period (some rows) idx fs).fs = (resetPhase2 out period rows fs).fs := by
  simp only [reset_period]
  split
  · rfl
  · rfl

theorem reset_period_index_early (out period : String) (rows : List AuditRow) (idx : IndexFile)
    (fs : FS)
    (hcond : (resetPhase1 out period rows fs).tids.isEmpty
      ∧ (resetPhase2 out period rows fs).deleted = 0) :
    (reset_period out period (some rows) idx fs).indexFile = idx := by
  simp only [reset_period]
  rw [if_pos hcond]

theorem reset_period_index_late (out period : String) (rows : List AuditRow) (idx : IndexFile)
    (fs : FS)
    (hcond : ¬ ((resetPhase1 out period rows fs).tids.isEmpty
      ∧ (resetPhase2 out period rows fs).deleted = 0)) :
    (reset_period out period (some rows) idx fs).indexFile
      = .valid ((loadIndexList idx).filter
          (fun tid => !(resetPhase1 out period rows fs).tids.contains tid)) := by
  simp only [reset_period]
  rw [if_neg hcond]

/-- Claim C6 (amended): reset_period deletes exactly the files recorded
by Saved Attachment Process rows whose email date matches the period
(prefix match, or all), together with exactly those report files whose
filename contains the period string anywhere (the implemented filter is
substring containment, not a match on the dates the name encodes, which
is what the counterexample exhibits); and the persisted index afterwards
holds exactly the previously indexed thread ids that no matching Saved
row names. -/
theorem c6_reset_scoping (out period : String) (rows : List AuditRow) (idx : IndexFile)
    (fs : FS) :
    (∀ p, ((reset_period out period (some rows) idx fs).fs).fileAt p
        = if resetDeletesFile out period rows fs p = true then none else fs.fileAt p)
    ∧ (∀ tid, tid ∈ loadIndexList (reset_period out period (some rows) idx fs).indexFile ↔
        (tid ∈ loadIndexList idx
          ∧ ¬ ∃ row ∈ rows, rowMatches period row = true ∧ row.threadId = tid)) := by
  have h1 : ∀ p, (resetPhase1 out period rows fs).fs.fileAt p =
      if rows.any (fun row => rowMatches period row && decide (p = out ++ "/" ++ row.details))
          = true then none
      else fs.fileAt p := fun p => resetAttachRows_fileAt out period rows ⟨fs, [], []⟩ p
  have hsubdirs := resetAttachRows_fs_sub out period rows ⟨fs, [], []⟩
  have hsub : (resetPhase1 out period rows fs).fs.files.Sublist fs.files := hsubdirs.1
  have hdirs : (resetPhase1 out period rows fs).fs.dirs = fs.dirs := hsubdirs.2
  have hde : (resetPhase1 out period rows fs).fs.dirExists (reportsDirOf out)
      = fs.dirExists (reportsDirOf out) := by
    unfold FS.dirExists
    rw [hdirs]
  constructor
  · intro p
    rw [reset_period_fs]
    by_cases hdir : fs.dirExists (reportsDirOf out) = true
    case neg =>
      have hdirf : fs.dirExists (reportsDirOf out) = false := by
        revert hdir
        cases fs.dirExists (reportsDirOf out) <;> simp
      have hfs2 : (resetPhase2 out period rows fs).fs = (resetPhase1 out period rows fs).fs := by
        unfold resetPhase2
        rw [if_neg (by rw [hde, hdirf]; exact (by decide))]
      rw [hfs2, h1]
      simp only [resetDeletesFile, hdirf, Bool.false_and, Bool.or_false]
    case pos =>
      have hfs2 : (resetPhase2 out period rows fs).fs =
          (resetReports out period
            ⟨(resetPhase1 out period rows fs).fs, 0, (resetPhase1 out period rows fs).log, []⟩
            ((resetPhase1 out period rows fs).fs.listdir (reportsDirOf out))).fs := by
        unfold resetPhase2
        rw [if_pos (by rw [hde]; exact hdir)]
      rw [hfs2, resetReports_fileAt, h1]
      by_cases hD1 : rows.any
          (fun row => rowMatches period row && decide (p = out ++ "/" ++ row.details)) = true
      · simp [resetDeletesFile, hD1]
      · have hD1f : rows.any
            (fun row => rowMatches period row && decide (p = out ++ "/" ++ row.details))
            = false := by
          revert hD1
          cases rows.any
            (fun row => rowMatches period row && decide (p = out ++ "/" ++ row.details)) <;> simp
        by_cases hD2p : ((resetPhase1 out period rows fs).fs.listdir (reportsDirOf out)).any
            (fun n => reportNameMatches period n && decide (p = out ++ "/reports/" ++ n)) = true
        · obtain ⟨n, hn, hPn⟩ := List.any_eq_true.mp hD2p
          have hn2 : n ∈ fs.listdir (reportsDirOf out) := (listdir_sublist hsub _).subset hn
          have hD2 : (fs.listdir (reportsDirOf out)).any
              (fun n => reportNameMatches period n && decide (p = out ++ "/reports/" ++ n))
              = true := List.any_eq_true.mpr ⟨n, hn2, hPn⟩
          simp [resetDeletesFile, hD2p, hdir, hD2]
        · have hD2pf : ((resetPhase1 out period rows fs).fs.listdir (reportsDirOf out)).any
              (fun n => reportNameMatches period n && decide (p = out ++ "/reports/" ++ n))
              = false := by
            revert hD2p
            cases ((resetPhase1 out period rows fs).fs.listdir (reportsDirOf out)).any
              (fun n => reportNameMatches period n && decide (p = out ++ "/reports/" ++ n)) <;>
              simp
          by_cases hD2 : (fs.listdir (reportsDirOf out)).any
              (fun n => reportNameMatches period n && decide (p = out ++ "/reports/" ++ n))
              = true
          · obtain ⟨n, hn, hPn⟩ := List.any_eq_true.mp hD2
            obtain ⟨hPn1, hPn2⟩ := Bool.and_eq_true_iff.mp hPn
            have hpeq : p = out ++ "/reports/" ++ n := of_decide_eq_true hPn2
            have hnn : n ∉ (resetPhase1 out period rows fs).fs.listdir (reportsDirOf out) := by
              intro hmem
              have h2 : ((resetPhase1 out period rows fs).fs.listdir (reportsDirOf out)).any
                  (fun n => reportNameMatches period n && decide (p = out ++ "/reports/" ++ n))
                  = true := List.any_eq_true.mpr ⟨n, hmem, hPn⟩
              rw [hD2pf] at h2
              cases h2
            have hnone : (resetPhase1 out period rows fs).fs.fileAt p = none := by
              rw [hpeq, reportsPath_eq]
              exact fileAt_eq_none_of_not_listdir hnn
            have hfsnone : fs.fileAt p = none := by
              have := h1 p
              rw [hD1f] at this
              simp only [Bool.false_eq_true, if_false] at this
              rw [← this]
              exact hnone
            simp [resetDeletesFile, hD2pf, hD1f, hD2, hdir, hfsnone]
          · have hD2f : (fs.listdir (reportsDirOf out)).any
                (fun n => reportNameMatches period n && decide (p = out ++ "/reports/" ++ n))
                = false := by
              revert hD2
              cases (fs.listdir (reportsDirOf out)).any
                (fun n => reportNameMatches period n && decide (p = out ++ "/reports/" ++ n)) <;>
                simp
            simp [resetDeletesFile, hD2pf, hD1f, hD2f]
  · intro tid
    have htids : ∀ x, x ∈ (resetPhase1 out period rows fs).tids ↔
        ∃ row ∈ rows, rowMatches period row = true ∧ row.threadId = x := by
      intro x
      have := resetAttachRows_tids out period rows ⟨fs, [], []⟩ x
      simpa using this
    by_cases hcond : (resetPhase1 out period rows fs).tids.isEmpty = true
        ∧ (resetPhase2 out period rows fs).deleted = 0
    · rw [reset_period_index_early out period rows idx fs hcond]
      have hnone : ¬ ∃ row ∈ rows, rowMatches period row = true ∧ row.threadId = tid := by
        intro hex
        have hmem := (htids tid).mpr hex
        rw [List.isEmpty_iff.mp hcond.1] at hmem
        cases hmem
      simp [hnone]
    · rw [reset_period_index_late out period rows idx fs hcond]
      show tid ∈ ((loadIndexList idx).filter
          (fun x => !(resetPhase1 out period rows fs).tids.contains x)).dedup ↔ _
      rw [List.mem_dedup, List.mem_filter]
      constructor
      · rintro ⟨hmem, hf⟩
        refine ⟨hmem, ?_⟩
        intro hex
        have hmem2 := (htids tid).mpr hex
        simp at hf
        exact hf hmem2
      · rintro ⟨hmem, hnex⟩
        refine ⟨hmem, ?_⟩
        simp
        intro hmem2
        exact hnex ((htids tid).mp hmem2)

end FiscalFetch
